import Mathlib

/-!
# The `Array<TYPE>` container of `gcc/d/dfrontend/array.h`

A shallow embedding of the growable pointer container of the D front end
(`template <typename TYPE> struct Array`) together with the memory it
manipulates, and proofs about its sequence operations.

The machine is LP64: `size_t` arithmetic wraps modulo `2 ^ 64` and a slot
(`TYPE *`) occupies `sizeof(*data) = 8` bytes.  Every operation that the C++
code performs on memory is checked: an access outside a block, through a
released block or through `NULL`, and a release of something that is not a
live heap block, are undefined behaviour and surface as a `Fault`.
-/

namespace GDC

/-! ## Machine parameters -/

/-- The macro `SMALLARRAYCAP` of `array.h`: slots of the inline buffer. -/
def SMALLARRAYCAP : Nat := 1

/-- Number of values of `size_t`: arithmetic on sizes wraps modulo this. -/
def SIZE_MOD : Nat := 18446744073709551616

/-- The value `sizeof(*data)`, the size in bytes of one `TYPE *` slot. -/
def PTR_SIZE : Nat := 8

/-- Wrapping `size_t` addition. -/
def szAdd (a b : Nat) : Nat := (a + b) % SIZE_MOD

/-- Wrapping `size_t` subtraction (of values below `SIZE_MOD`). -/
def szSub (a b : Nat) : Nat := (a + SIZE_MOD - b % SIZE_MOD) % SIZE_MOD

/-- Wrapping `size_t` multiplication. -/
def szMul (a b : Nat) : Nat := (a * b) % SIZE_MOD

/-- The byte count `n * sizeof(*data)` as the code computes it. -/
def nbytes (n : Nat) : Nat := szMul n PTR_SIZE

/-- Number of whole slots in a byte count. -/
def nslots (bytes : Nat) : Nat := bytes / PTR_SIZE

/-! ## Memory -/

/-- What goes wrong when the C++ code leaves defined behaviour. -/
inductive Fault where
  /-- an access through `NULL` -/
  | nullDeref
  /-- an access or release through a pointer to no block at all -/
  | wildPointer
  /-- an access through a pointer to a released heap block -/
  | useAfterFree
  /-- an access beyond the end of the block the pointer designates -/
  | outOfBounds
  /-- a release of something that is not a live heap block -/
  | invalidFree
  /-- a use of an indeterminate (never written) pointer value -/
  | indeterminate
  deriving DecidableEq

deriving instance DecidableEq for Except

/-- The content of one slot: a value of type `TYPE *`.  It is indeterminate
(`junk`, as in memory fresh from the allocator), `NULL`, or the address of an
element. -/
inductive Cell (TYPE : Type) where
  | junk
  | null
  | ptr (a : TYPE)
  deriving DecidableEq

/-- A value of the member `data` (of type `TYPE **`): `NULL`, the address
`&smallarray[0]` of the inline buffer of the container that holds the
pointer, or the start of heap block number `b`. -/
inductive DataPtr where
  | null
  | small
  | heap (b : Nat)
  deriving DecidableEq

/-- A block handed out by the allocator: released or not, and its slots. -/
structure Block (TYPE : Type) where
  live : Bool
  cells : List (Cell TYPE)
  deriving DecidableEq

/-- The heap: every block ever handed out, indexed by its number. -/
abbrev Heap (TYPE : Type) := List (Block TYPE)

/-- The data members of `struct Array`. -/
structure Array (TYPE : Type) where
  dim : Nat
  data : DataPtr
  allocdim : Nat
  smallarray : List (Cell TYPE)
  deriving DecidableEq

variable {TYPE : Type}

/-- Modelled from the spec: `mem_malloc` is only declared in `array.h`; the
spec gives it allocate semantics.  It hands out a fresh live block of
`size` bytes whose content is indeterminate. -/
def mem_malloc (h : Heap TYPE) (size : Nat) : Heap TYPE × DataPtr :=
  (h ++ [⟨true, List.replicate (nslots size) Cell.junk⟩], DataPtr.heap h.length)

/-- Modelled from the spec: `mem_free` is only declared in `array.h`; the
spec gives it free semantics.  Releasing `NULL` does nothing; releasing
anything but a live heap block is undefined. -/
def mem_free (h : Heap TYPE) : DataPtr → Except Fault (Heap TYPE)
  | DataPtr.null => Except.ok h
  | DataPtr.small => Except.error Fault.invalidFree
  | DataPtr.heap b =>
    match h[b]? with
    | none => Except.error Fault.invalidFree
    | some blk =>
      if blk.live then Except.ok (h.set b ⟨false, blk.cells⟩)
      else Except.error Fault.invalidFree

/-- Modelled from the spec: `mem_realloc` is only declared in `array.h`; the
spec gives it reallocate semantics.  The result is a fresh live block of
`size` bytes that starts with the old content (as much as fits), and the old
block is released. -/
def mem_realloc (h : Heap TYPE) (p : DataPtr) (size : Nat) :
    Except Fault (Heap TYPE × DataPtr) :=
  match p with
  | DataPtr.null => Except.ok (mem_malloc h size)
  | DataPtr.small => Except.error Fault.invalidFree
  | DataPtr.heap b =>
    match h[b]? with
    | none => Except.error Fault.invalidFree
    | some blk =>
      if blk.live then
        let kept := blk.cells.take (nslots size)
        Except.ok
          (h.set b ⟨false, blk.cells⟩ ++
              [⟨true, kept ++ List.replicate (nslots size - kept.length) Cell.junk⟩],
            DataPtr.heap h.length)
      else Except.error Fault.invalidFree

/-- The slots of the block that pointer `p`, held by container `c`,
designates. -/
def region (h : Heap TYPE) (c : Array TYPE) : DataPtr → Except Fault (List (Cell TYPE))
  | DataPtr.null => Except.error Fault.nullDeref
  | DataPtr.small => Except.ok c.smallarray
  | DataPtr.heap b =>
    match h[b]? with
    | none => Except.error Fault.wildPointer
    | some blk => if blk.live then Except.ok blk.cells else Except.error Fault.useAfterFree

/-- Read `n` slots starting at `p + off`. -/
def load (h : Heap TYPE) (c : Array TYPE) (p : DataPtr) (off n : Nat) :
    Except Fault (List (Cell TYPE)) :=
  match region h c p with
  | Except.error f => Except.error f
  | Except.ok cells =>
    if off + n ≤ cells.length then Except.ok ((cells.drop off).take n)
    else Except.error Fault.outOfBounds

/-- Overwrite part of a block: `vs` lands at offset `off`. -/
def patch (cells : List (Cell TYPE)) (off : Nat) (vs : List (Cell TYPE)) : List (Cell TYPE) :=
  cells.take off ++ vs ++ cells.drop (off + vs.length)

/-- Write the slots `vs` starting at `p + off`. -/
def store (h : Heap TYPE) (c : Array TYPE) (p : DataPtr) (off : Nat) (vs : List (Cell TYPE)) :
    Except Fault (Heap TYPE × Array TYPE) :=
  match p with
  | DataPtr.null => Except.error Fault.nullDeref
  | DataPtr.small =>
    if off + vs.length ≤ c.smallarray.length then
      Except.ok (h, { c with smallarray := patch c.smallarray off vs })
    else Except.error Fault.outOfBounds
  | DataPtr.heap b =>
    match h[b]? with
    | none => Except.error Fault.wildPointer
    | some blk =>
      if blk.live then
        if off + vs.length ≤ blk.cells.length then
          Except.ok (h.set b ⟨true, patch blk.cells off vs⟩, c)
        else Except.error Fault.outOfBounds
      else Except.error Fault.useAfterFree

/-- The calls `memcpy(dst + doff, src + soff, size)` and
`memmove(dst + doff, src + soff, size)`: the source slots are read first and
then written, which is the meaning of `memmove` and, for the disjoint ranges
that `memcpy` requires, of `memcpy`.  `dst` is a pointer of container `c`, `src`
a pointer of container `sc`. -/
def memmove (h : Heap TYPE) (c : Array TYPE) (dst : DataPtr) (doff : Nat)
    (sc : Array TYPE) (src : DataPtr) (soff : Nat) (size : Nat) :
    Except Fault (Heap TYPE × Array TYPE) :=
  match load h sc src soff (nslots size) with
  | Except.error f => Except.error f
  | Except.ok vs => store h c dst doff vs

/-- Read the slot `p[off]`. -/
def peek (h : Heap TYPE) (c : Array TYPE) (p : DataPtr) (off : Nat) :
    Except Fault (Cell TYPE) :=
  match region h c p with
  | Except.error f => Except.error f
  | Except.ok cells =>
    match cells[off]? with
    | none => Except.error Fault.outOfBounds
    | some v => Except.ok v

/-- Write the slot `p[off] = v`. -/
def poke (h : Heap TYPE) (c : Array TYPE) (p : DataPtr) (off : Nat) (v : Cell TYPE) :
    Except Fault (Heap TYPE × Array TYPE) :=
  store h c p off [v]

/-! ## The member functions of `struct Array` -/

/-- The constructor `Array()`: empty, `data` aliasing the inline buffer, whose
slot has not been written yet. -/
def Array.ctor : Array TYPE :=
  { dim := 0
    data := if SMALLARRAYCAP ≠ 0 then DataPtr.small else DataPtr.null
    allocdim := SMALLARRAYCAP
    smallarray := List.replicate SMALLARRAYCAP Cell.junk }

/-- The member function `reserve(nentries)`. -/
def Array.reserve (h : Heap TYPE) (c : Array TYPE) (nentries : Nat) :
    Except Fault (Heap TYPE × Array TYPE) :=
  if szSub c.allocdim c.dim < nentries then
    if c.allocdim = 0 then
      if nentries ≤ SMALLARRAYCAP then
        Except.ok (h, { c with
          allocdim := SMALLARRAYCAP
          data := if SMALLARRAYCAP ≠ 0 then DataPtr.small else DataPtr.null })
      else
        let r := mem_malloc h (nbytes nentries)
        Except.ok (r.1, { c with allocdim := nentries, data := r.2 })
    else if c.allocdim = SMALLARRAYCAP then
      let allocdim := szAdd c.dim nentries
      let r := mem_malloc h (nbytes allocdim)
      let c1 : Array TYPE := { c with allocdim := allocdim, data := r.2 }
      memmove r.1 c1 c1.data 0 c1 DataPtr.small 0 (nbytes c1.dim)
    else
      let allocdim := szAdd c.dim nentries
      match mem_realloc h c.data (nbytes allocdim) with
      | Except.error f => Except.error f
      | Except.ok r => Except.ok (r.1, { c with allocdim := allocdim, data := r.2 })
  else Except.ok (h, c)

/-- The member function `setDim(newdim)`. -/
def Array.setDim (h : Heap TYPE) (c : Array TYPE) (newdim : Nat) :
    Except Fault (Heap TYPE × Array TYPE) :=
  if c.dim < newdim then
    match c.reserve h (szSub newdim c.dim) with
    | Except.error f => Except.error f
    | Except.ok r => Except.ok (r.1, { r.2 with dim := newdim })
  else Except.ok (h, { c with dim := newdim })

/-- The member function `fixDim()`. -/
def Array.fixDim (h : Heap TYPE) (c : Array TYPE) : Except Fault (Heap TYPE × Array TYPE) :=
  if c.dim ≠ c.allocdim then
    if c.allocdim ≥ SMALLARRAYCAP then
      if c.dim ≤ SMALLARRAYCAP then
        match memmove h c DataPtr.small 0 c c.data 0 (nbytes c.dim) with
        | Except.error f => Except.error f
        | Except.ok r =>
          match mem_free r.1 r.2.data with
          | Except.error f => Except.error f
          | Except.ok h2 => Except.ok (h2, { r.2 with allocdim := r.2.dim })
      else
        match mem_realloc h c.data (nbytes c.dim) with
        | Except.error f => Except.error f
        | Except.ok r => Except.ok (r.1, { c with data := r.2, allocdim := c.dim })
    else Except.ok (h, { c with allocdim := c.dim })
  else Except.ok (h, c)

/-- The member function `pop()`: `return data[--dim];`. -/
def Array.pop (h : Heap TYPE) (c : Array TYPE) : Except Fault (Cell TYPE × Array TYPE) :=
  let c1 : Array TYPE := { c with dim := szSub c.dim 1 }
  match peek h c1 c1.data c1.dim with
  | Except.error f => Except.error f
  | Except.ok v => Except.ok (v, c1)

/-- The member function `shift(ptr)`. -/
def Array.shift (h : Heap TYPE) (c : Array TYPE) (ptr : Cell TYPE) :
    Except Fault (Heap TYPE × Array TYPE) :=
  match c.reserve h 1 with
  | Except.error f => Except.error f
  | Except.ok r1 =>
    match memmove r1.1 r1.2 r1.2.data 1 r1.2 r1.2.data 0 (nbytes r1.2.dim) with
    | Except.error f => Except.error f
    | Except.ok r2 =>
      match poke r2.1 r2.2 r2.2.data 0 ptr with
      | Except.error f => Except.error f
      | Except.ok r3 => Except.ok (r3.1, { r3.2 with dim := szAdd r3.2.dim 1 })

/-- The member function `remove(i)`. -/
def Array.remove (h : Heap TYPE) (c : Array TYPE) (i : Nat) :
    Except Fault (Heap TYPE × Array TYPE) :=
  if szSub (szSub c.dim i) 1 ≠ 0 then
    match memmove h c c.data i c c.data (i + 1) (nbytes (szSub (szSub c.dim i) 1)) with
    | Except.error f => Except.error f
    | Except.ok r => Except.ok (r.1, { r.2 with dim := szSub r.2.dim 1 })
  else Except.ok (h, { c with dim := szSub c.dim 1 })

/-- The member function `zero()`: `memset(data, 0, dim * sizeof(data[0]))`; the
null pointer is all bits zero. -/
def Array.zero (h : Heap TYPE) (c : Array TYPE) : Except Fault (Heap TYPE × Array TYPE) :=
  store h c c.data 0 (List.replicate (nslots (nbytes c.dim)) Cell.null)

/-- The member function `tos()`: `return dim ? data[dim - 1] : NULL;`. -/
def Array.tos (h : Heap TYPE) (c : Array TYPE) : Except Fault (Cell TYPE) :=
  if c.dim ≠ 0 then peek h c c.data (szSub c.dim 1) else Except.ok Cell.null

/-- The member function `tdata()`. -/
def Array.tdata (c : Array TYPE) : DataPtr := c.data

/-- The member function `operator[](index)` of a build without `DEBUG`, read
as an rvalue: `data[index]`. -/
def Array.opIndex (h : Heap TYPE) (c : Array TYPE) (index : Nat) : Except Fault (Cell TYPE) :=
  peek h c c.data index

/-- An assignment `(*this)[index] = v` through the reference that
`operator[](index)` returns. -/
def Array.opIndexAssign (h : Heap TYPE) (c : Array TYPE) (index : Nat) (v : Cell TYPE) :
    Except Fault (Heap TYPE × Array TYPE) :=
  poke h c c.data index v

/-- The member function `insert(index, v)` for one element. -/
def Array.insert (h : Heap TYPE) (c : Array TYPE) (index : Nat) (v : Cell TYPE) :
    Except Fault (Heap TYPE × Array TYPE) :=
  match c.reserve h 1 with
  | Except.error f => Except.error f
  | Except.ok r1 =>
    match memmove r1.1 r1.2 r1.2.data (index + 1) r1.2 r1.2.data index
        (nbytes (szSub r1.2.dim index)) with
    | Except.error f => Except.error f
    | Except.ok r2 =>
      match poke r2.1 r2.2 r2.2.data index v with
      | Except.error f => Except.error f
      | Except.ok r3 => Except.ok (r3.1, { r3.2 with dim := szAdd r3.2.dim 1 })

/-- The member function `insert(index, a)` for a whole container `a`, which is
another object than `this`; `none` is the null pointer. -/
def Array.insertArray (h : Heap TYPE) (c : Array TYPE) (index : Nat) (a : Option (Array TYPE)) :
    Except Fault (Heap TYPE × Array TYPE) :=
  match a with
  | none => Except.ok (h, c)
  | some a =>
    let d := a.dim
    match c.reserve h d with
    | Except.error f => Except.error f
    | Except.ok r1 =>
      let moved :=
        if r1.2.dim ≠ index then
          memmove r1.1 r1.2 r1.2.data (index + d) r1.2 r1.2.data index
            (nbytes (szSub r1.2.dim index))
        else Except.ok r1
      match moved with
      | Except.error f => Except.error f
      | Except.ok r2 =>
        match memmove r2.1 r2.2 r2.2.data index a a.data 0 (nbytes d) with
        | Except.error f => Except.error f
        | Except.ok r3 => Except.ok (r3.1, { r3.2 with dim := szAdd r3.2.dim d })

/-- The member function `append(a)`. -/
def Array.append (h : Heap TYPE) (c : Array TYPE) (a : Option (Array TYPE)) :
    Except Fault (Heap TYPE × Array TYPE) :=
  c.insertArray h c.dim a

/-- The member function `push(a)`: `reserve(1); data[dim++] = a;`. -/
def Array.push (h : Heap TYPE) (c : Array TYPE) (a : Cell TYPE) :
    Except Fault (Heap TYPE × Array TYPE) :=
  match c.reserve h 1 with
  | Except.error f => Except.error f
  | Except.ok r1 =>
    match poke r1.1 r1.2 r1.2.data r1.2.dim a with
    | Except.error f => Except.error f
    | Except.ok r2 => Except.ok (r2.1, { r2.2 with dim := szAdd r2.2.dim 1 })

/-- The member function `copy()`; the result is the heap and the new
container `*a`, the receiver `c` itself is not written. -/
def Array.copy (h : Heap TYPE) (c : Array TYPE) : Except Fault (Heap TYPE × Array TYPE) :=
  match (Array.ctor : Array TYPE).setDim h c.dim with
  | Except.error f => Except.error f
  | Except.ok r => memmove r.1 r.2 r.2.data 0 c c.data 0 (nbytes c.dim)

/-- The first loop of `toChars()`, from index `u` on with `k` iterations left:
`buf[u] = ((RootObject *)data[u])->toChars(); len += strlen(buf[u]) + 1;`.
The method `RootObject::toChars` of the elements is the parameter
`objToChars`; it gives the characters of the C string before its `NUL`.
`bufslots` is the number of slots of the block `buf`. -/
def toCharsCollect (objToChars : TYPE → List Char) (h : Heap TYPE) (c : Array TYPE)
    (bufslots : Nat) : Nat → Nat → List (List Char) → Nat →
    Except Fault (List (List Char) × Nat)
  | 0, _, buf, len => Except.ok (buf, len)
  | k + 1, u, buf, len =>
    match peek h c c.data u with
    | Except.error f => Except.error f
    | Except.ok Cell.junk => Except.error Fault.indeterminate
    | Except.ok Cell.null => Except.error Fault.nullDeref
    | Except.ok (Cell.ptr a) =>
      if u < bufslots then
        toCharsCollect objToChars h c bufslots k (u + 1) (buf ++ [objToChars a])
          (szAdd len (szAdd (objToChars a).length 1))
      else Except.error Fault.outOfBounds

/-- A write of `bytes` at the cursor `p` of the block `str` of `cap` bytes;
`str` is what has been written so far, so `p = str + str.length`. -/
def strWrite (cap : Nat) (str bytes : List Char) : Except Fault (List Char) :=
  if str.length + bytes.length ≤ cap then Except.ok (str ++ bytes)
  else Except.error Fault.outOfBounds

/-- The second loop of `toChars()` over `buf[u], buf[u+1], ...`:
`if (u) *p++ = ','; len = strlen(buf[u]); memcpy(p, buf[u], len); p += len;`. -/
def toCharsFill (cap : Nat) : List (List Char) → Nat → List Char → Except Fault (List Char)
  | [], _, str => Except.ok str
  | s :: rest, u, str =>
    match (if u ≠ 0 then strWrite cap str [','] else Except.ok str) with
    | Except.error f => Except.error f
    | Except.ok str1 =>
      match strWrite cap str1 s with
      | Except.error f => Except.error f
      | Except.ok str2 => toCharsFill cap rest (u + 1) str2

/-- Everything `toChars()` writes into a block `str` of `cap` bytes, given the
strings `buf` of the elements: `'['`, the second loop, `']'` and the `NUL`. -/
def toCharsEmit (cap : Nat) (buf : List (List Char)) : Except Fault (List Char) :=
  match strWrite cap [] ['['] with
  | Except.error f => Except.error f
  | Except.ok str0 =>
    match toCharsFill cap buf 0 str0 with
    | Except.error f => Except.error f
    | Except.ok str1 =>
      match strWrite cap str1 [']'] with
      | Except.error f => Except.error f
      | Except.ok str2 => strWrite cap str2 [Char.ofNat 0]

/-- The size `len` that `toChars()` computes for the block `str`, together
with the strings of the elements (`buf` has `dim * sizeof(char *)` bytes). -/
def Array.toCharsLen (objToChars : TYPE → List Char) (h : Heap TYPE) (c : Array TYPE) :
    Except Fault (List (List Char) × Nat) :=
  toCharsCollect objToChars h c (nslots (nbytes c.dim)) c.dim 0 [] 2

/-- The member function `toChars()`.  The result is the C string in `str`: the
written bytes without the final `NUL`.  The allocator of this model never
returns `NULL`, so `assert(buf)` passes. -/
def Array.toChars (objToChars : TYPE → List Char) (h : Heap TYPE) (c : Array TYPE) :
    Except Fault (List Char) :=
  match c.toCharsLen objToChars h with
  | Except.error f => Except.error f
  | Except.ok r =>
    match toCharsEmit r.2 r.1 with
    | Except.error f => Except.error f
    | Except.ok bytes => Except.ok bytes.dropLast

/-- The loop of `apply(fp, param)` from index `i` on with `k` iterations left.
The method `TYPE::apply` of the elements, applied to `fp` and `param`, is the
parameter `elemApply`; the state `σ` is whatever the visits change. -/
def applyLoop {σ : Type} (elemApply : TYPE → σ → Int × σ) (h : Heap TYPE) (c : Array TYPE) :
    Nat → Nat → σ → Except Fault (Int × σ)
  | 0, _, s => Except.ok (0, s)
  | k + 1, i, s =>
    match c.opIndex h i with
    | Except.error f => Except.error f
    | Except.ok Cell.junk => Except.error Fault.indeterminate
    | Except.ok Cell.null => applyLoop elemApply h c k (i + 1) s
    | Except.ok (Cell.ptr e) =>
      if (elemApply e s).1 ≠ 0 then Except.ok (1, (elemApply e s).2)
      else applyLoop elemApply h c k (i + 1) (elemApply e s).2

/-- The member function `apply(fp, param)`. -/
def Array.apply {σ : Type} (elemApply : TYPE → σ → Int × σ) (h : Heap TYPE) (c : Array TYPE)
    (s : σ) : Except Fault (Int × σ) :=
  applyLoop elemApply h c c.dim 0 s

/-- A sequence of `push` calls, one for each element of the list, in order. -/
def pushAll (h : Heap TYPE) (c : Array TYPE) : List (Cell TYPE) →
    Except Fault (Heap TYPE × Array TYPE)
  | [] => Except.ok (h, c)
  | a :: as =>
    match c.push h a with
    | Except.error f => Except.error f
    | Except.ok r => pushAll r.1 r.2 as

/-- The strings of a rendering, each one preceded by a comma. -/
def commaEach (buf : List (List Char)) : List Char :=
  match buf with
  | [] => []
  | s :: rest => ',' :: (s ++ commaEach rest)

/-- The form `[e0,e1,...]` of the spec: the rendered elements separated by
single commas, inside brackets. -/
def renderSpec (strs : List (List Char)) : List Char :=
  ['['] ++ List.intercalate [','] strs ++ [']']

/-- The size `toChars()` is meant to compute: 2 plus, for each element, the
length of its string plus 1. -/
def renderSize (strs : List (List Char)) : Nat :=
  2 + (strs.map (fun s => s.length + 1)).sum

/-- The non-null elements of a sequence of slots, in index order. -/
def nonNull : List (Cell TYPE) → List TYPE
  | [] => []
  | Cell.ptr e :: rest => e :: nonNull rest
  | _ :: rest => nonNull rest

/-- The walk of the spec over the non-null elements: it returns "stop" (1) as
soon as the traversal of an element signals stop (non-zero), and "continue" (0)
after all elements otherwise. -/
def traverseSpec {σ : Type} (elemApply : TYPE → σ → Int × σ) : List TYPE → σ → Int × σ
  | [], s => (0, s)
  | e :: es, s =>
    if (elemApply e s).1 ≠ 0 then (1, (elemApply e s).2)
    else traverseSpec elemApply es (elemApply e s).2

/-- The state after the traversals of the elements of `es`, one after the
other, each exactly once. -/
def visitAll {σ : Type} (elemApply : TYPE → σ → Int × σ) (es : List TYPE) (s : σ) : σ :=
  es.foldl (fun t e => (elemApply e t).2) s

/-! ## Predicates on states -/

/-- The slots `data[0 .. dim)`: the sequence the container holds. -/
def Array.elems (h : Heap TYPE) (c : Array TYPE) : Except Fault (List (Cell TYPE)) :=
  load h c c.data 0 c.dim

/-- The number of slots of the block `data` points to, when it is the inline
buffer or a live heap block. -/
def Array.backing (h : Heap TYPE) (c : Array TYPE) : Option Nat :=
  match region h c c.data with
  | Except.ok cells => some cells.length
  | Except.error _ => none

/-- A well-formed container: `dim ≤ allocdim`, and `data` is the inline buffer
(of `SMALLARRAYCAP` slots) or a live heap block, of `allocdim` slots in both
cases; the byte size of the storage is a value of `size_t`. -/
def WellFormed (h : Heap TYPE) (c : Array TYPE) : Prop :=
  c.dim ≤ c.allocdim ∧ c.smallarray.length = SMALLARRAYCAP ∧
    c.backing h = some c.allocdim ∧ c.allocdim * PTR_SIZE < SIZE_MOD

/-- The code tells inline from heap storage by `allocdim == SMALLARRAYCAP`:
a capacity of `SMALLARRAYCAP` goes with the inline buffer only. -/
def Discriminated (c : Array TYPE) : Prop :=
  c.allocdim = SMALLARRAYCAP → c.data = DataPtr.small

/-- Every block of `h` other than the one `p` points to is untouched in `h2`,
and no block number of `h` is reused. -/
def FrameOf (p : DataPtr) (h h2 : Heap TYPE) : Prop :=
  h.length ≤ h2.length ∧ ∀ b, b < h.length → DataPtr.heap b ≠ p → h2[b]? = h[b]?

instance (h : Heap TYPE) (c : Array TYPE) [DecidableEq TYPE] : Decidable (WellFormed h c) := by
  unfold WellFormed; infer_instance

instance (c : Array TYPE) : Decidable (Discriminated c) := by
  unfold Discriminated; infer_instance

/-- The pointer `q` is `p`, an inline buffer, or a block newer than `h`. -/
def Fresh (h : Heap TYPE) (p q : DataPtr) : Prop :=
  q = p ∨ q = DataPtr.small ∨ ∃ k, q = DataPtr.heap k ∧ h.length ≤ k

/-- Two containers that share no heap block (each owns its storage; the
inline buffers of two objects are different memory by construction). -/
def Separate (c a : Array TYPE) : Prop :=
  ∀ b, c.data = DataPtr.heap b → a.data ≠ DataPtr.heap b

instance (c a : Array TYPE) : Decidable (Separate c a) :=
  match hc : c.data with
  | DataPtr.null => isTrue (fun b e => by rw [hc] at e; cases e)
  | DataPtr.small => isTrue (fun b e => by rw [hc] at e; cases e)
  | DataPtr.heap k =>
    if ha : a.data = DataPtr.heap k then
      isFalse (fun hs => hs k hc ha)
    else
      isTrue (fun b e => by
        rw [hc] at e
        injection e with e
        subst e
        exact ha)

/-- A container in the zero-initialised state that `reserve` provides for
("someone memset it to zero"): no elements, no capacity, `data == NULL`. -/
def Zeroed (c : Array TYPE) : Prop :=
  c.dim = 0 ∧ c.allocdim = 0 ∧ c.data = DataPtr.null

instance (c : Array TYPE) : Decidable (Zeroed c) := by
  unfold Zeroed; infer_instance

/-- The bookkeeping invariant: `dim ≤ allocdim`, with `allocdim` a value of
`size_t`. -/
def Bounded (c : Array TYPE) : Prop :=
  c.dim ≤ c.allocdim ∧ c.allocdim < SIZE_MOD

/-- The containers that the member functions can produce from a newly
constructed one.  Each operation is run in an arbitrary heap and must return;
its stated precondition holds, its arguments are values of `size_t`, and
`reserve(n)` is called with `dim + n` representable in `size_t`.  The other
container of a bulk insert is such a container too. -/
inductive Reach : Array TYPE → Prop
  | ctor : Reach Array.ctor
  | reserve {c c2 : Array TYPE} {h h2 : Heap TYPE} {n : Nat} :
      Reach c → c.dim + n < SIZE_MOD → c.reserve h n = Except.ok (h2, c2) → Reach c2
  | setDim {c c2 : Array TYPE} {h h2 : Heap TYPE} {n : Nat} :
      Reach c → n < SIZE_MOD → c.setDim h n = Except.ok (h2, c2) → Reach c2
  | fixDim {c c2 : Array TYPE} {h h2 : Heap TYPE} :
      Reach c → c.fixDim h = Except.ok (h2, c2) → Reach c2
  | pop {c c2 : Array TYPE} {h : Heap TYPE} {v : Cell TYPE} :
      Reach c → 0 < c.dim → c.pop h = Except.ok (v, c2) → Reach c2
  | push {c c2 : Array TYPE} {h h2 : Heap TYPE} {a : Cell TYPE} :
      Reach c → c.push h a = Except.ok (h2, c2) → Reach c2
  | shift {c c2 : Array TYPE} {h h2 : Heap TYPE} {a : Cell TYPE} :
      Reach c → c.shift h a = Except.ok (h2, c2) → Reach c2
  | remove {c c2 : Array TYPE} {h h2 : Heap TYPE} {i : Nat} :
      Reach c → i < c.dim → c.remove h i = Except.ok (h2, c2) → Reach c2
  | insert {c c2 : Array TYPE} {h h2 : Heap TYPE} {i : Nat} {a : Cell TYPE} :
      Reach c → i ≤ c.dim → c.insert h i a = Except.ok (h2, c2) → Reach c2
  | insertArray {c c2 : Array TYPE} {h h2 : Heap TYPE} {i : Nat} {a : Option (Array TYPE)} :
      Reach c → (∀ b, a = some b → Reach b) → i ≤ c.dim →
      c.insertArray h i a = Except.ok (h2, c2) → Reach c2
  | append {c c2 : Array TYPE} {h h2 : Heap TYPE} {a : Option (Array TYPE)} :
      Reach c → (∀ b, a = some b → Reach b) → c.append h a = Except.ok (h2, c2) → Reach c2
  | zero {c c2 : Array TYPE} {h h2 : Heap TYPE} :
      Reach c → c.zero h = Except.ok (h2, c2) → Reach c2
  | copy {c c2 : Array TYPE} {h h2 : Heap TYPE} :
      Reach c → c.copy h = Except.ok (h2, c2) → Reach c2

/-! ## Sample states

The elements `A`, `B`, `C`, ... of the scenarios are the numbers `1`, `2`, `3`, ... -/

/-- A heap with one live block holding `[A, B]`. -/
def heapAB : Heap Nat := [⟨true, [Cell.ptr 1, Cell.ptr 2]⟩]

/-- The container `[A, B]` backed by block 0 of `heapAB`. -/
def arrAB : Array Nat :=
  { dim := 2, data := DataPtr.heap 0, allocdim := 2, smallarray := [Cell.junk] }

/-- A heap with one live block of a single slot, holding `[A]`. -/
def heapOne : Heap Nat := [⟨true, [Cell.ptr 1]⟩]

/-- A container `[A]` whose storage is the one-slot heap block of `heapOne`;
its inline buffer was never written. -/
def arrOne : Array Nat :=
  { dim := 1, data := DataPtr.heap 0, allocdim := 1, smallarray := [Cell.junk] }

/-- A heap with one live block holding `[A, C, B]`. -/
def heapACB : Heap Nat := [⟨true, [Cell.ptr 1, Cell.ptr 3, Cell.ptr 2]⟩]

/-- The container `[A, C, B]` backed by block 0 of `heapACB`. -/
def arrACB : Array Nat :=
  { dim := 3, data := DataPtr.heap 0, allocdim := 3, smallarray := [Cell.junk] }

/-- A heap with two live blocks, holding `[A, B]` and `[P, Q]`. -/
def heapABPQ : Heap Nat :=
  [⟨true, [Cell.ptr 1, Cell.ptr 2]⟩, ⟨true, [Cell.ptr 16, Cell.ptr 17]⟩]

/-- The container `[P, Q]` backed by block 1 of `heapABPQ`. -/
def arrPQ : Array Nat :=
  { dim := 2, data := DataPtr.heap 1, allocdim := 2, smallarray := [Cell.junk] }

/-- The container `[P]` held in its own inline buffer. -/
def arrP : Array Nat :=
  { dim := 1, data := DataPtr.small, allocdim := 1, smallarray := [Cell.ptr 16] }

/-- A heap with one live block holding `[C, B]`. -/
def heapCB : Heap Nat := [⟨true, [Cell.ptr 3, Cell.ptr 2]⟩]

/-- The container `[C, B]` backed by block 0 of `heapCB`. -/
def arrCB : Array Nat :=
  { dim := 2, data := DataPtr.heap 0, allocdim := 2, smallarray := [Cell.junk] }

/-- The container `[C]` held in its own inline buffer. -/
def arrC : Array Nat :=
  { dim := 1, data := DataPtr.small, allocdim := 1, smallarray := [Cell.ptr 3] }

/-- A rendering of the sample elements: `C` renders as `"c"`, any other
element as `"?"`. -/
def sampleToChars (a : Nat) : List Char := if a = 3 then ['c'] else ['?']

/-- A heap with one live block holding `[A, NULL, B, C]`. -/
def heapANBC : Heap Nat := [⟨true, [Cell.ptr 1, Cell.null, Cell.ptr 2, Cell.ptr 3]⟩]

/-- The container `[A, NULL, B, C]` backed by block 0 of `heapANBC`. -/
def arrANBC : Array Nat :=
  { dim := 4, data := DataPtr.heap 0, allocdim := 4, smallarray := [Cell.junk] }

/-- A traversal of the sample elements that records the element in the
context and signals stop at `B`. -/
def sampleApply (e : Nat) (s : List Nat) : Int × List Nat :=
  (if e = 2 then 1 else 0, s ++ [e])

/-- A zero-initialised container. -/
def arrZero : Array Nat :=
  { dim := 0, data := DataPtr.null, allocdim := 0, smallarray := [Cell.junk] }

/-- A heap with one live block of two slots, the first holding `A`. -/
def heapA2 : Heap Nat := [⟨true, [Cell.ptr 1, Cell.junk]⟩]

/-- The heap-backed container `[A]` of capacity 2 in `heapA2`. -/
def arrA2 : Array Nat :=
  { dim := 1, data := DataPtr.heap 0, allocdim := 2, smallarray := [Cell.junk] }

/-- The container `[A, B]` of `heapAB` truncated to `[A]`: the block keeps its
two slots. -/
def arrABcut : Array Nat :=
  { dim := 1, data := DataPtr.heap 0, allocdim := 2, smallarray := [Cell.junk] }

/-! ## Size arithmetic -/

theorem szSub_eq {a b : Nat} (hb : b ≤ a) (ha : a < SIZE_MOD) : szSub a b = a - b := by
  unfold szSub SIZE_MOD at *; omega

theorem szAdd_eq {a b : Nat} (h : a + b < SIZE_MOD) : szAdd a b = a + b := by
  unfold szAdd SIZE_MOD at *; omega

theorem nslots_nbytes {n : Nat} (h : n * PTR_SIZE < SIZE_MOD) : nslots (nbytes n) = n := by
  unfold nslots nbytes szMul PTR_SIZE SIZE_MOD at *; omega

theorem lt_SIZE_MOD_of_bytes {n : Nat} (h : n * PTR_SIZE < SIZE_MOD) : n < SIZE_MOD := by
  unfold PTR_SIZE SIZE_MOD at *; omega

/-! ## Lists of slots -/

theorem patch_length (cells : List (Cell TYPE)) (off : Nat) (vs : List (Cell TYPE))
    (hb : off + vs.length ≤ cells.length) : (patch cells off vs).length = cells.length := by
  simp [patch]; omega

/-- Overwriting the middle of three segments. -/
theorem patch_mid (a b t vs : List (Cell TYPE)) (hl : vs.length = b.length) :
    patch (a ++ b ++ t) a.length vs = a ++ vs ++ t := by
  simp [patch, hl, List.append_assoc]

/-- Reading the middle of three segments. -/
theorem slice_mid (a b t : List (Cell TYPE)) :
    ((a ++ b ++ t).drop a.length).take b.length = b := by
  simp [List.append_assoc]

/-! ## Memory accesses -/

theorem FrameOf.refl (p : DataPtr) (h : Heap TYPE) : FrameOf p h h :=
  ⟨Nat.le_refl _, fun _ _ _ => rfl⟩

theorem region_of_wf {h : Heap TYPE} {c : Array TYPE} (hwf : WellFormed h c) :
    ∃ cells, region h c c.data = Except.ok cells ∧ cells.length = c.allocdim := by
  obtain ⟨-, -, hb, -⟩ := hwf
  unfold Array.backing at hb
  cases hr : region h c c.data with
  | error f => simp [hr] at hb
  | ok cells => exact ⟨cells, rfl, by simpa [hr] using hb⟩

theorem elems_of_region {h : Heap TYPE} {c : Array TYPE} {cells : List (Cell TYPE)}
    (hr : region h c c.data = Except.ok cells) (hb : c.dim ≤ cells.length) :
    c.elems h = Except.ok (cells.take c.dim) := by
  simp [Array.elems, load, hr, hb]

theorem region_of_elems {h : Heap TYPE} {c : Array TYPE} {xs : List (Cell TYPE)}
    (he : c.elems h = Except.ok xs) :
    ∃ free, region h c c.data = Except.ok (xs ++ free) ∧ xs.length = c.dim := by
  unfold Array.elems load at he
  cases hr : region h c c.data with
  | error f => simp [hr] at he
  | ok cells =>
    simp only [hr] at he
    split at he
    · rename_i hb
      injection he with he
      subst he
      refine ⟨cells.drop c.dim, ?_, ?_⟩
      · simp
      · simp at hb ⊢; omega
    · cases he

theorem peek_of_region {h : Heap TYPE} {c : Array TYPE} {cells : List (Cell TYPE)}
    (hr : region h c c.data = Except.ok cells) (j : Nat) (v : Cell TYPE)
    (hj : cells[j]? = some v) : peek h c c.data j = Except.ok v := by
  simp [peek, hr, hj]

theorem load_of_region {h : Heap TYPE} {c : Array TYPE} {p : DataPtr} {cells : List (Cell TYPE)}
    (hr : region h c p = Except.ok cells) (off n : Nat) (hb : off + n ≤ cells.length) :
    load h c p off n = Except.ok ((cells.drop off).take n) := by
  simp [load, hr, hb]

theorem store_spec {h : Heap TYPE} {c : Array TYPE} {cells : List (Cell TYPE)}
    (off : Nat) (vs : List (Cell TYPE))
    (hr : region h c c.data = Except.ok cells) (hb : off + vs.length ≤ cells.length) :
    ∃ h2 c2, store h c c.data off vs = Except.ok (h2, c2) ∧
      region h2 c2 c2.data = Except.ok (patch cells off vs) ∧
      c2.dim = c.dim ∧ c2.data = c.data ∧ c2.allocdim = c.allocdim ∧
      c2.smallarray.length = c.smallarray.length ∧
      FrameOf c.data h h2 ∧ h2.length = h.length := by
  cases hd : c.data with
  | null => simp [hd, region] at hr
  | small =>
    simp only [hd, region] at hr
    injection hr with hr
    subst hr
    refine ⟨h, { c with smallarray := patch c.smallarray off vs }, ?_, ?_, rfl, ?_, rfl, ?_,
      FrameOf.refl _ _, rfl⟩
    · simp [store, hb]
    · simp [hd, region]
    · simp [hd]
    · simp [patch_length _ _ _ hb]
  | heap b =>
    simp only [hd, region] at hr
    cases hg : h[b]? with
    | none => simp [hg] at hr
    | some blk =>
      simp only [hg] at hr
      split at hr
      · rename_i hlive
        injection hr with hr
        subst hr
        have hlt : b < h.length := by
          rcases Nat.lt_or_ge b h.length with hlt | hge
          · exact hlt
          · simp [List.getElem?_eq_none hge] at hg
        refine ⟨h.set b ⟨true, patch blk.cells off vs⟩, c, ?_, ?_, rfl, hd, rfl, rfl, ?_, ?_⟩
        · simp [store, hg, hlive, hb]
        · simp [hd, region, hlt]
        · refine ⟨by simp, fun b2 _ hne => ?_⟩
          have : b ≠ b2 := fun e => hne (by rw [e])
          simp [List.getElem?_set, this]
        · simp
      · cases hr

theorem wf_intro {h : Heap TYPE} {c : Array TYPE} {cells : List (Cell TYPE)}
    (hr : region h c c.data = Except.ok cells) (hl : cells.length = c.allocdim)
    (hd : c.dim ≤ c.allocdim) (hs : c.smallarray.length = SMALLARRAYCAP)
    (hb : c.allocdim * PTR_SIZE < SIZE_MOD) : WellFormed h c :=
  ⟨hd, hs, by simp [Array.backing, hr, hl], hb⟩

theorem FrameOf.trans {p q : DataPtr} {h h2 h3 : Heap TYPE} (h12 : FrameOf p h h2)
    (h23 : FrameOf q h2 h3) (hq : Fresh h p q) : FrameOf p h h3 := by
  refine ⟨Nat.le_trans h12.1 h23.1, fun b hb hne => ?_⟩
  rw [h23.2 b (Nat.lt_of_lt_of_le hb h12.1) ?_, h12.2 b hb hne]
  rcases hq with rfl | rfl | ⟨k, rfl, hk⟩
  · exact hne
  · simp
  · intro e
    injection e with e
    omega

theorem memmove_self {h : Heap TYPE} {c : Array TYPE} {cells : List (Cell TYPE)}
    (doff soff size : Nat) (hr : region h c c.data = Except.ok cells)
    (hs : soff + nslots size ≤ cells.length) (hd : doff + nslots size ≤ cells.length) :
    ∃ h2 c2, memmove h c c.data doff c c.data soff size = Except.ok (h2, c2) ∧
      region h2 c2 c2.data =
        Except.ok (patch cells doff ((cells.drop soff).take (nslots size))) ∧
      c2.dim = c.dim ∧ c2.data = c.data ∧ c2.allocdim = c.allocdim ∧
      c2.smallarray.length = c.smallarray.length ∧
      FrameOf c.data h h2 ∧ h2.length = h.length := by
  have hlen : ((cells.drop soff).take (nslots size)).length = nslots size := by
    simp; omega
  obtain ⟨h2, c2, hst, rest⟩ :=
    store_spec doff ((cells.drop soff).take (nslots size)) hr (by rw [hlen]; exact hd)
  refine ⟨h2, c2, ?_, rest⟩
  simp [memmove, load_of_region hr soff _ hs, hst]

theorem region_append_new (h : Heap TYPE) (c : Array TYPE) (blk : Block TYPE)
    (hl : blk.live = true) :
    region (h ++ [blk]) c (DataPtr.heap h.length) = Except.ok blk.cells := by
  simp [region, hl]

theorem frame_append (p : DataPtr) (h : Heap TYPE) (blk : Block TYPE) :
    FrameOf p h (h ++ [blk]) := by
  refine ⟨by simp, fun b hb _ => ?_⟩
  simp [List.getElem?_append_left hb]

/-! ## `reserve` -/

/-- On a well-formed container `reserve(n)` returns (when the byte size of
`dim + n` slots is a `size_t`) a well-formed container with room for `n` more
elements.  The first `dim` slots of the new storage are `ys`; they are the old
elements when the container is `Discriminated`. -/
theorem reserve_total {h : Heap TYPE} {c : Array TYPE} {xs : List (Cell TYPE)} (n : Nat)
    (hwf : WellFormed h c) (he : c.elems h = Except.ok xs)
    (hn : (c.dim + n) * PTR_SIZE < SIZE_MOD) :
    ∃ h2 c2 free ys, c.reserve h n = Except.ok (h2, c2) ∧
      region h2 c2 c2.data = Except.ok (ys ++ free) ∧ ys.length = c.dim ∧
      (Discriminated c → ys = xs ∧ Discriminated c2) ∧
      c2.dim = c.dim ∧ c.dim + n ≤ c2.allocdim ∧ WellFormed h2 c2 ∧
      FrameOf c.data h h2 ∧ Fresh h c.data c2.data ∧
      (n ≤ c.allocdim - c.dim → h2 = h ∧ c2 = c) ∧
      (c.allocdim - c.dim < n →
        ((c.allocdim = 0 ∧ n ≤ SMALLARRAYCAP) →
          c2.data = DataPtr.small ∧ c2.allocdim = SMALLARRAYCAP ∧ h2 = h) ∧
        (¬(c.allocdim = 0 ∧ n ≤ SMALLARRAYCAP) →
          c2.data = DataPtr.heap h.length ∧ c2.allocdim = c.dim + n ∧
            h2.length = h.length + 1)) := by
  have hwf0 := hwf
  obtain ⟨hdim, hsm, -, hbytes⟩ := hwf
  obtain ⟨free0, hr, hxl⟩ := region_of_elems he
  obtain ⟨cells, hr2, hcl⟩ := region_of_wf hwf0
  rw [hr] at hr2
  injection hr2 with hr2
  subst hr2
  have hsub : szSub c.allocdim c.dim = c.allocdim - c.dim :=
    szSub_eq hdim (lt_SIZE_MOD_of_bytes hbytes)
  have hadd : szAdd c.dim n = c.dim + n := szAdd_eq (lt_SIZE_MOD_of_bytes hn)
  unfold Array.reserve
  rw [hsub]
  by_cases hlt : c.allocdim - c.dim < n
  · rw [if_pos hlt]
    by_cases h0 : c.allocdim = 0
    · rw [if_pos h0]
      have hx0 : xs = [] := List.length_eq_zero.mp (by omega)
      subst hx0
      by_cases hn1 : n ≤ SMALLARRAYCAP
      · rw [if_pos hn1]
        refine ⟨h, _, c.smallarray, [], rfl, ?_, hxl, fun _ => ⟨rfl, ?_⟩, rfl, ?_, ?_,
          FrameOf.refl _ _, Or.inr (Or.inl ?_), fun hle => (Nat.not_le_of_lt hlt hle).elim,
          fun _ => ⟨fun _ => ⟨by simp [SMALLARRAYCAP], rfl, rfl⟩,
            fun hno => (hno ⟨h0, hn1⟩).elim⟩⟩
        · simp [SMALLARRAYCAP, region]
        · intro _; simp [SMALLARRAYCAP]
        · simp at hxl; simp; omega
        · refine @wf_intro _ _ _ c.smallarray ?_ ?_ ?_ hsm ?_
          · simp [SMALLARRAYCAP, region]
          · simp [hsm]
          · simp at hxl; simp; omega
          · simp [SMALLARRAYCAP, PTR_SIZE, SIZE_MOD]
        · simp [SMALLARRAYCAP]
      · rw [if_neg hn1]
        have hn8 : n * PTR_SIZE < SIZE_MOD := by
          simp at hxl; rw [← hxl] at hn; simpa using hn
        refine ⟨_, _, List.replicate n Cell.junk, [], rfl, ?_, hxl, fun _ => ⟨rfl, ?_⟩, rfl,
          ?_, ?_, frame_append _ _ _, Or.inr (Or.inr ⟨h.length, rfl, Nat.le_refl _⟩),
          fun hle => (Nat.not_le_of_lt hlt hle).elim,
          fun _ => ⟨fun hyes => (hn1 hyes.2).elim,
            fun _ => ⟨rfl, by simp at hxl; simp [← hxl], by simp [mem_malloc]⟩⟩⟩
        · simp [mem_malloc, region, nslots_nbytes hn8]
        · intro e; exact absurd (Nat.le_of_eq e) hn1
        · simp at hxl; simp; omega
        · refine @wf_intro _ _ _ (List.replicate n Cell.junk) ?_ ?_ ?_ hsm hn8
          · simp [mem_malloc, region, nslots_nbytes hn8]
          · simp
          · simp at hxl; simp; omega
    · rw [if_neg h0]
      have hn8 : nslots (nbytes (c.dim + n)) = c.dim + n := nslots_nbytes hn
      have hd8 : nslots (nbytes c.dim) = c.dim :=
        nslots_nbytes (by unfold PTR_SIZE SIZE_MOD at *; omega)
      by_cases h1 : c.allocdim = SMALLARRAYCAP
      · rw [if_pos h1]
        simp only [hadd, hn8, hd8, mem_malloc]
        have hvl : (c.smallarray.take c.dim).length = c.dim := by
          simp; omega
        have hreg : region (h ++ [⟨true, List.replicate (c.dim + n) Cell.junk⟩])
            ({ c with allocdim := c.dim + n, data := DataPtr.heap h.length } : Array TYPE)
            (DataPtr.heap h.length) = Except.ok (List.replicate (c.dim + n) Cell.junk) :=
          region_append_new h _ ⟨true, List.replicate (c.dim + n) Cell.junk⟩ rfl
        have hld : load (h ++ [⟨true, List.replicate (c.dim + n) Cell.junk⟩])
            ({ c with allocdim := c.dim + n, data := DataPtr.heap h.length } : Array TYPE)
            DataPtr.small 0 c.dim = Except.ok (c.smallarray.take c.dim) := by
          have : c.dim ≤ c.smallarray.length := by omega
          simp [load, region, this]
        obtain ⟨h2, c2, hst, hreg2, hd2, hp2, ha2, hs2, hf2, hl2⟩ :=
          store_spec (c := ({ c with allocdim := c.dim + n, data := DataPtr.heap h.length } :
            Array TYPE)) 0 (c.smallarray.take c.dim) hreg (by rw [hvl]; simp)
        refine ⟨h2, c2, (List.replicate (c.dim + n) Cell.junk).drop c.dim,
          c.smallarray.take c.dim, ?_, ?_, hvl, ?_, hd2, ?_, ?_, ?_, ?_,
          fun hle => (Nat.not_le_of_lt hlt hle).elim,
          fun _ => ⟨fun hyes => (h0 hyes.1).elim,
            fun _ => ⟨hp2, ha2, by rw [hl2]; simp⟩⟩⟩
        · simp only [memmove, hd8, hld]; exact hst
        · rw [hreg2]; simp only [patch, hvl]; simp
        · intro hdisc
          have hsmall := hdisc h1
          have hsa : c.smallarray = xs ++ free0 := by
            rw [hsmall] at hr; simp only [region] at hr; injection hr
          refine ⟨by rw [hsa, ← hxl]; simp, ?_⟩
          intro e; rw [ha2] at e; simp only at e; unfold SMALLARRAYCAP at *; omega
        · rw [ha2]
        · refine wf_intro hreg2 ?_ ?_ ?_ ?_
          · rw [patch_length _ _ _ (by rw [hvl]; simp), ha2]; simp
          · rw [hd2, ha2]; simp
          · rw [hs2]; exact hsm
          · rw [ha2]; exact hn
        · exact (frame_append _ _ _).trans hf2
            (Or.inr (Or.inr ⟨h.length, rfl, Nat.le_refl _⟩))
        · rw [hp2]; exact Or.inr (Or.inr ⟨h.length, rfl, Nat.le_refl _⟩)
      · rw [if_neg h1]
        cases hp : c.data with
        | null => simp [hp, region] at hr
        | small =>
          exfalso
          rw [hp] at hr; simp only [region] at hr; injection hr with hr
          rw [hr] at hsm; omega
        | heap b =>
          rw [hp] at hr
          simp only [region] at hr
          cases hg : h[b]? with
          | none => simp [hg] at hr
          | some blk =>
            simp only [hg] at hr
            split at hr
            · rename_i hlive
              injection hr with hr
              have hlt : b < h.length := by
                rcases Nat.lt_or_ge b h.length with hlt | hge
                · exact hlt
                · simp [List.getElem?_eq_none hge] at hg
              have hk : blk.cells.take (c.dim + n) = xs ++ free0 := by
                rw [hr]; apply List.take_of_length_le; omega
              have hre : mem_realloc h (DataPtr.heap b) (nbytes (c.dim + n)) =
                  Except.ok (h.set b ⟨false, blk.cells⟩ ++ [⟨true, xs ++ free0 ++
                    List.replicate (c.dim + n - (xs ++ free0).length) Cell.junk⟩],
                    DataPtr.heap h.length) := by
                simp only [mem_realloc, hg, hlive, if_true, hn8, hk]
              have hl := region_append_new (h.set b ⟨false, blk.cells⟩)
                ({ c with allocdim := c.dim + n, data := DataPtr.heap h.length } : Array TYPE)
                ⟨true, xs ++ free0 ++
                  List.replicate (c.dim + n - (xs ++ free0).length) Cell.junk⟩ rfl
              simp only [List.length_set, List.append_assoc] at hl
              refine ⟨h.set b ⟨false, blk.cells⟩ ++ [⟨true, xs ++ free0 ++
                    List.replicate (c.dim + n - (xs ++ free0).length) Cell.junk⟩],
                { c with allocdim := c.dim + n, data := DataPtr.heap h.length },
                free0 ++ List.replicate (c.dim + n - (xs ++ free0).length) Cell.junk, xs,
                ?_, ?_, hxl, fun _ => ⟨rfl, ?_⟩, rfl, ?_, ?_, ?_,
                Or.inr (Or.inr ⟨h.length, rfl, Nat.le_refl _⟩),
                fun hle => (Nat.not_le_of_lt ‹c.allocdim - c.dim < n› hle).elim,
                fun _ => ⟨fun hyes => (h0 hyes.1).elim, fun _ => ⟨rfl, rfl, by simp⟩⟩⟩
              · simp only [hadd, hre]
              · simpa [List.append_assoc] using hl
              · intro e; simp only at e; unfold SMALLARRAYCAP at *; omega
              · simp
              · refine @wf_intro _ _ _ (xs ++ (free0 ++
                    List.replicate (c.dim + n - (xs ++ free0).length) Cell.junk)) ?_ ?_ ?_ hsm hn
                · simpa [List.append_assoc] using hl
                · simp at hcl ⊢; omega
                · simp
              · refine ⟨by simp, fun b2 hb2 hne => ?_⟩
                have hbb : b ≠ b2 := fun e => hne (by rw [e])
                have hb3 : b2 < (h.set b ⟨false, blk.cells⟩).length := by simpa using hb2
                rw [List.getElem?_append_left hb3]
                simp [List.getElem?_set, hbb]
            · cases hr
  · rw [if_neg hlt]
    refine ⟨h, c, free0, xs, rfl, hr, hxl, fun hd => ⟨rfl, hd⟩, rfl, ?_, hwf0, FrameOf.refl _ _,
      Or.inl rfl, fun _ => ⟨rfl, rfl⟩, fun hgrow => (hlt hgrow).elim⟩
    omega

theorem reserve_spec {h : Heap TYPE} {c : Array TYPE} {xs : List (Cell TYPE)} (n : Nat)
    (hwf : WellFormed h c) (hdisc : Discriminated c) (he : c.elems h = Except.ok xs)
    (hn : (c.dim + n) * PTR_SIZE < SIZE_MOD) :
    ∃ h2 c2 free, c.reserve h n = Except.ok (h2, c2) ∧
      region h2 c2 c2.data = Except.ok (xs ++ free) ∧
      c2.dim = c.dim ∧ c.dim + n ≤ c2.allocdim ∧ WellFormed h2 c2 ∧ Discriminated c2 ∧
      FrameOf c.data h h2 ∧ Fresh h c.data c2.data := by
  obtain ⟨h2, c2, free, ys, hres, hreg, -, hd, hdim, hcap, hwf2, hfr, hfresh, -, -⟩ :=
    reserve_total n hwf he hn
  obtain ⟨rfl, hd2⟩ := hd hdisc
  exact ⟨h2, c2, free, hres, hreg, hdim, hcap, hwf2, hd2, hfr, hfresh⟩

/-! ## Moving slots inside the storage -/

theorem patch_nil (cells : List (Cell TYPE)) (off : Nat) : patch cells off [] = cells := by
  simp [patch]

/-- Moving the tail `[i, dim)` up by `vs.length` slots and writing `vs` into the
gap inserts `vs` at index `i`. -/
theorem shift_right_cells (xs free vs : List (Cell TYPE)) (i : Nat) (hi : i ≤ xs.length)
    (hf : vs.length ≤ free.length) :
    patch (patch (xs ++ free) (i + vs.length) (((xs ++ free).drop i).take (xs.length - i))) i vs
      = xs.take i ++ vs ++ xs.drop i ++ free.drop vs.length := by
  have h1 : ((xs ++ free).drop i).take (xs.length - i) = xs.drop i := by
    rw [List.drop_append_of_le_length hi, List.take_append_of_le_length (by simp),
      List.take_of_length_le (by simp)]
  rw [h1]
  unfold patch
  have h2 : ((xs ++ free).take (i + vs.length)).length = i + vs.length := by simp; omega
  have h3 : (xs ++ free).drop (i + vs.length + (xs.drop i).length) = free.drop vs.length := by
    have : i + vs.length + (xs.drop i).length = xs.length + vs.length := by simp; omega
    rw [this, List.drop_append]
  rw [h3, List.append_assoc ((xs ++ free).take (i + vs.length)),
    List.take_append_of_le_length (by omega), List.take_take,
    List.drop_left' h2, Nat.min_eq_left (by omega), List.take_append_of_le_length hi]
  simp [List.append_assoc]

theorem elems_of_region_append {h : Heap TYPE} {c : Array TYPE} {ys rest : List (Cell TYPE)}
    (hr : region h c c.data = Except.ok (ys ++ rest)) (hd : c.dim = ys.length) :
    c.elems h = Except.ok ys := by
  rw [elems_of_region hr (by simp [hd]), hd]
  simp

theorem opIndex_of_elems {h : Heap TYPE} {c : Array TYPE} {ys : List (Cell TYPE)}
    (he : c.elems h = Except.ok ys) (j : Nat) (hj : j < c.dim) :
    (c.opIndex h j).toOption = ys[j]? := by
  obtain ⟨rest, hr, hl⟩ := region_of_elems he
  have hlt : j < ys.length := by omega
  have hj2 : (ys ++ rest)[j]? = some ys[j] := by
    rw [List.getElem?_append_left hlt, List.getElem?_eq_getElem hlt]
  rw [Array.opIndex, peek_of_region hr j _ hj2, List.getElem?_eq_getElem hlt]
  rfl

theorem opIndex_of_mem {h : Heap TYPE} {c : Array TYPE} {ys : List (Cell TYPE)}
    (he : c.elems h = Except.ok ys) (j : Nat) (v : Cell TYPE) (hj : ys[j]? = some v) :
    c.opIndex h j = Except.ok v := by
  obtain ⟨rest, hr, -⟩ := region_of_elems he
  refine peek_of_region hr j v ?_
  have hlt : j < ys.length := by
    rcases Nat.lt_or_ge j ys.length with hlt | hge
    · exact hlt
    · rw [List.getElem?_eq_none hge] at hj; cases hj
  rw [List.getElem?_append_left hlt]; exact hj

theorem region_congr (h : Heap TYPE) (c c2 : Array TYPE) (p : DataPtr)
    (hs : c2.smallarray = c.smallarray) : region h c2 p = region h c p := by
  cases p <;> simp [region, hs]

theorem region_setDim (h : Heap TYPE) (c : Array TYPE) (p : DataPtr) (d : Nat) :
    region h ({ c with dim := d } : Array TYPE) p = region h c p := by
  cases p <;> simp [region]

/-! ## `insert(index, v)` -/

theorem insert_core {h : Heap TYPE} {c : Array TYPE} {xs : List (Cell TYPE)} (i : Nat)
    (e : Cell TYPE) (hwf : WellFormed h c) (hdisc : Discriminated c)
    (he : c.elems h = Except.ok xs) (hi : i ≤ c.dim)
    (hfit : (c.dim + 1) * PTR_SIZE < SIZE_MOD) :
    ∃ h2 c2, c.insert h i e = Except.ok (h2, c2) ∧ c2.dim = c.dim + 1 ∧
      c2.elems h2 = Except.ok (xs.take i ++ [e] ++ xs.drop i) ∧
      WellFormed h2 c2 ∧ Discriminated c2 ∧ FrameOf c.data h h2 ∧ Fresh h c.data c2.data := by
  obtain ⟨h1, c1, free, hres, hreg1, hd1, hcap, hwf1, hdisc1, hfr1, hfresh1⟩ :=
    reserve_spec 1 hwf hdisc he hfit
  obtain ⟨-, -, hxl⟩ := region_of_elems he
  obtain ⟨cells1, hr1, hcl1⟩ := region_of_wf hwf1
  rw [hreg1] at hr1
  injection hr1 with hr1
  subst hr1
  have hfl : 1 ≤ free.length := by simp at hcl1; omega
  have hb1 : c1.allocdim * PTR_SIZE < SIZE_MOD := hwf1.2.2.2
  have hcnt : nslots (nbytes (szSub c1.dim i)) = xs.length - i := by
    rw [szSub_eq (by omega) (by unfold PTR_SIZE SIZE_MOD at *; omega),
      nslots_nbytes (by unfold PTR_SIZE SIZE_MOD at *; omega)]
    omega
  obtain ⟨h2, c2, hmv, hreg2, hd2, hp2, ha2, hs2, hf2, hl2⟩ :=
    memmove_self (i + 1) i (nbytes (szSub c1.dim i)) hreg1
      (by rw [hcnt]; simp; omega) (by rw [hcnt]; simp; omega)
  rw [hcnt] at hreg2
  obtain ⟨h3, c3, hpk, hreg3, hd3, hp3, ha3, hs3, hf3, hl3⟩ :=
    store_spec i [e] hreg2 (by rw [patch_length _ _ _ (by simp; omega)]; simp; omega)
  have hfin := shift_right_cells xs free [e] i (by omega) (by simpa using hfl)
  simp only [List.length_singleton] at hfin
  rw [hfin] at hreg3
  have hadd : szAdd c3.dim 1 = c.dim + 1 := by
    rw [hd3, hd2, hd1]; exact szAdd_eq (lt_SIZE_MOD_of_bytes hfit)
  have hreg4 : region h3 ({ c3 with dim := szAdd c3.dim 1 } : Array TYPE) c3.data =
      Except.ok (xs.take i ++ [e] ++ xs.drop i ++ free.drop 1) := by
    exact (region_congr h3 c3 _ c3.data rfl).trans hreg3
  refine ⟨h3, { c3 with dim := szAdd c3.dim 1 }, ?_, hadd, ?_, ?_, ?_, ?_, ?_⟩
  · simp only [Array.insert, hres, hmv, poke, hpk]
  · refine elems_of_region_append hreg4 ?_
    simp only [hadd]; simp; omega
  · refine wf_intro hreg4 ?_ ?_ ?_ ?_
    · simp only [ha3, ha2]; simp at hcl1 ⊢; omega
    · simp only [hadd, ha3, ha2]; omega
    · simp only [hs3, hs2]; exact hwf1.2.1
    · simp only [ha3, ha2]; exact hb1
  · intro e2
    have e3 : c3.allocdim = SMALLARRAYCAP := e2
    have := hdisc1 (by rw [← ha2, ← ha3]; exact e3)
    show c3.data = DataPtr.small
    rw [hp3, hp2]; exact this
  · have hq2 : Fresh h c.data c2.data := by rw [hp2]; exact hfresh1
    have hq3 : Fresh h c.data c3.data := by rw [hp3]; exact hq2
    exact (hfr1.trans hf2 hfresh1).trans hf3 hq2
  · show Fresh h c.data c3.data
    rw [hp3, hp2]; exact hfresh1

/-! ## `remove(i)` -/

/-- Moving the tail `(i, dim)` down by one slot deletes index `i`. -/
theorem shift_left_cells (xs free : List (Cell TYPE)) (i : Nat) (hi : i < xs.length) :
    patch (xs ++ free) i (((xs ++ free).drop (i + 1)).take (xs.length - i - 1))
      = xs.take i ++ xs.drop (i + 1) ++ (xs.drop (xs.length - 1) ++ free) := by
  have h1 : ((xs ++ free).drop (i + 1)).take (xs.length - i - 1) = xs.drop (i + 1) := by
    rw [List.drop_append_of_le_length (by omega), List.take_append_of_le_length (by simp; omega),
      List.take_of_length_le (by simp; omega)]
  rw [h1]
  unfold patch
  have h2 : i + (xs.drop (i + 1)).length = xs.length - 1 := by simp; omega
  rw [h2, List.take_append_of_le_length (by omega),
    List.drop_append_of_le_length (by omega)]

theorem remove_core {h : Heap TYPE} {c : Array TYPE} {xs : List (Cell TYPE)} (i : Nat)
    (hwf : WellFormed h c) (he : c.elems h = Except.ok xs) (hi : i < c.dim) :
    ∃ h2 c2, c.remove h i = Except.ok (h2, c2) ∧ c2.dim = c.dim - 1 ∧
      c2.elems h2 = Except.ok (xs.take i ++ xs.drop (i + 1)) ∧
      WellFormed h2 c2 ∧ c2.data = c.data ∧ c2.allocdim = c.allocdim ∧ FrameOf c.data h h2 ∧
      (i + 1 = c.dim → h2 = h ∧ c2 = { c with dim := c.dim - 1 }) := by
  have hwf0 := hwf
  obtain ⟨hdim, hsm, -, hbytes⟩ := hwf
  obtain ⟨free, hr, hxl⟩ := region_of_elems he
  obtain ⟨cells, hr2, hcl⟩ := region_of_wf hwf0
  rw [hr] at hr2
  injection hr2 with hr2
  subst hr2
  have hlt : c.dim < SIZE_MOD := by unfold PTR_SIZE SIZE_MOD at *; omega
  have hs1 : szSub c.dim 1 = c.dim - 1 := szSub_eq (by omega) hlt
  have hs2 : szSub (szSub c.dim i) 1 = c.dim - i - 1 := by
    rw [szSub_eq (Nat.le_of_lt hi) hlt, szSub_eq (by omega) (by omega)]
  unfold Array.remove
  rw [hs2]
  by_cases hz : c.dim - i - 1 ≠ 0
  · rw [if_pos hz]
    have hcnt : nslots (nbytes (c.dim - i - 1)) = xs.length - i - 1 := by
      rw [nslots_nbytes (by unfold PTR_SIZE SIZE_MOD at *; omega), hxl]
    obtain ⟨h2, c2, hmv, hreg2, hd2, hp2, ha2, hsm2, hf2, -⟩ :=
      memmove_self i (i + 1) (nbytes (c.dim - i - 1)) hr
        (by rw [hcnt]; simp; omega) (by rw [hcnt]; simp; omega)
    rw [hcnt, shift_left_cells xs free i (by omega)] at hreg2
    have hreg3 := (region_setDim h2 c2 c2.data (szSub c2.dim 1)).trans hreg2
    have hdd : szSub c2.dim 1 = c.dim - 1 := by rw [hd2, hs1]
    refine ⟨h2, { c2 with dim := szSub c2.dim 1 }, ?_, hdd, ?_, ?_, hp2, ha2, hf2, ?_⟩
    · simp only [hmv]
    · refine elems_of_region_append hreg3 ?_
      simp only [hdd]; simp; omega
    · refine wf_intro hreg3 ?_ ?_ ?_ ?_
      · simp only [ha2]; simp at hcl ⊢; omega
      · simp only [hdd, ha2]; omega
      · simp only [hsm2]; exact hsm
      · simp only [ha2]; exact hbytes
    · intro hlast; omega
  · rw [if_neg hz]
    have hreg3 := (region_setDim h c c.data (szSub c.dim 1)).trans hr
    have hx : xs = xs.take i ++ xs.drop (i + 1) ++ xs.drop i := by
      rw [List.drop_of_length_le (by omega : xs.length ≤ i + 1), List.append_nil,
        List.take_append_drop]
    refine ⟨h, { c with dim := szSub c.dim 1 }, rfl, hs1, ?_, ?_, rfl, rfl, FrameOf.refl _ _, ?_⟩
    · rw [hx, List.append_assoc] at hreg3
      refine elems_of_region_append hreg3 ?_
      simp only [hs1]; simp; omega
    · refine wf_intro hreg3 ?_ ?_ hsm hbytes
      · simpa using hcl
      · simp only [hs1]; omega
    · intro _; rw [hs1]; exact ⟨rfl, rfl⟩

/-! ## `push`, `tos` and `pop` -/

theorem push_core {h : Heap TYPE} {c : Array TYPE} {xs : List (Cell TYPE)} (a : Cell TYPE)
    (hwf : WellFormed h c) (hdisc : Discriminated c) (he : c.elems h = Except.ok xs)
    (hfit : (c.dim + 1) * PTR_SIZE < SIZE_MOD) :
    ∃ h2 c2, c.push h a = Except.ok (h2, c2) ∧ c2.dim = c.dim + 1 ∧
      c2.elems h2 = Except.ok (xs ++ [a]) ∧
      WellFormed h2 c2 ∧ Discriminated c2 ∧ FrameOf c.data h h2 ∧ Fresh h c.data c2.data := by
  obtain ⟨h1, c1, free, hres, hreg1, hd1, hcap, hwf1, hdisc1, hfr1, hfresh1⟩ :=
    reserve_spec 1 hwf hdisc he hfit
  obtain ⟨-, -, hxl⟩ := region_of_elems he
  obtain ⟨cells1, hr1, hcl1⟩ := region_of_wf hwf1
  rw [hreg1] at hr1
  injection hr1 with hr1
  subst hr1
  have hfl : 1 ≤ free.length := by simp at hcl1; omega
  obtain ⟨h2, c2, hpk, hreg2, hd2, hp2, ha2, hs2, hf2, -⟩ :=
    store_spec c1.dim [a] hreg1 (by simp; omega)
  have hpatch : patch (xs ++ free) c1.dim [a] = xs ++ [a] ++ free.drop 1 := by
    have e : c1.dim = xs.length := by omega
    rw [e]
    simp [patch]
  rw [hpatch] at hreg2
  have hadd : szAdd c2.dim 1 = c.dim + 1 := by
    rw [hd2, hd1]; exact szAdd_eq (lt_SIZE_MOD_of_bytes hfit)
  have hreg3 := (region_setDim h2 c2 c2.data (szAdd c2.dim 1)).trans hreg2
  refine ⟨h2, { c2 with dim := szAdd c2.dim 1 }, ?_, hadd, ?_, ?_, ?_, ?_, ?_⟩
  · simp only [Array.push, hres, poke, hpk]
  · refine elems_of_region_append hreg3 ?_
    simp only [hadd]; simp; omega
  · refine wf_intro hreg3 ?_ ?_ ?_ ?_
    · simp only [ha2]; simp at hcl1 ⊢; omega
    · simp only [hadd, ha2]; omega
    · simp only [hs2]; exact hwf1.2.1
    · simp only [ha2]; exact hwf1.2.2.2
  · intro e2
    have e3 : c2.allocdim = SMALLARRAYCAP := e2
    show c2.data = DataPtr.small
    rw [hp2]; exact hdisc1 (by rw [← ha2]; exact e3)
  · exact hfr1.trans hf2 hfresh1
  · show Fresh h c.data c2.data
    rw [hp2]; exact hfresh1

theorem tos_of_elems {h : Heap TYPE} {c : Array TYPE} {xs : List (Cell TYPE)}
    (hwf : WellFormed h c) (he : c.elems h = Except.ok xs) :
    c.tos h = Except.ok (xs.getLast?.getD Cell.null) := by
  obtain ⟨hdim, -, -, hbytes⟩ := hwf
  obtain ⟨-, -, hxl⟩ := region_of_elems he
  unfold Array.tos
  by_cases hz : c.dim ≠ 0
  · rw [if_pos hz, szSub_eq (by omega) (by unfold PTR_SIZE SIZE_MOD at *; omega)]
    refine opIndex_of_mem he (c.dim - 1) _ ?_
    rw [List.getLast?_eq_getElem?, hxl]
    cases hg : xs[c.dim - 1]? with
    | none =>
      rw [List.getElem?_eq_none_iff] at hg
      omega
    | some v => rfl
  · rw [if_neg hz]
    have : xs = [] := List.length_eq_zero.mp (by omega)
    subst this
    rfl

theorem wf_ctor (h : Heap TYPE) : WellFormed h (Array.ctor : Array TYPE) := by
  refine ⟨?_, ?_, ?_, ?_⟩ <;>
    simp [Array.ctor, SMALLARRAYCAP, Array.backing, region, PTR_SIZE, SIZE_MOD]

theorem pushAll_core (as : List (Cell TYPE)) : ∀ {h : Heap TYPE} {c : Array TYPE}
    {xs : List (Cell TYPE)}, WellFormed h c → Discriminated c → c.elems h = Except.ok xs →
    (c.dim + as.length) * PTR_SIZE < SIZE_MOD →
    ∃ h2 c2, pushAll h c as = Except.ok (h2, c2) ∧ c2.dim = c.dim + as.length ∧
      c2.elems h2 = Except.ok (xs ++ as) ∧ WellFormed h2 c2 ∧ Discriminated c2 := by
  induction as with
  | nil =>
    intro h c xs hwf hdisc he _
    exact ⟨h, c, rfl, rfl, by simpa using he, hwf, hdisc⟩
  | cons a as ih =>
    intro h c xs hwf hdisc he hfit
    simp only [List.length_cons] at hfit
    obtain ⟨h1, c1, hpush, hd1, he1, hwf1, hdisc1, -, -⟩ :=
      push_core a hwf hdisc he (by unfold PTR_SIZE SIZE_MOD at *; omega)
    obtain ⟨h2, c2, hall, hd2, he2, hwf2, hdisc2⟩ :=
      ih hwf1 hdisc1 he1 (by rw [hd1]; unfold PTR_SIZE SIZE_MOD at *; omega)
    refine ⟨h2, c2, ?_, ?_, ?_, hwf2, hdisc2⟩
    · simp only [pushAll, hpush]; exact hall
    · rw [hd2, hd1]; simp only [List.length_cons]; omega
    · rw [he2]; simp

/-! ## `insert(index, a)` for a whole container -/

theorem lt_of_getElem?_some {h : Heap TYPE} {b : Nat} {blk : Block TYPE}
    (hg : h[b]? = some blk) : b < h.length := by
  rcases Nat.lt_or_ge b h.length with hlt | hge
  · exact hlt
  · rw [List.getElem?_eq_none hge] at hg; cases hg

/-- A container whose block lies outside the touched one reads the same
storage afterwards. -/
theorem region_frame {h h2 : Heap TYPE} {p : DataPtr} (a : Array TYPE) {cells : List (Cell TYPE)}
    (hf : FrameOf p h h2) (hr : region h a a.data = Except.ok cells)
    (hne : ∀ b, a.data = DataPtr.heap b → DataPtr.heap b ≠ p) :
    region h2 a a.data = Except.ok cells := by
  cases hd : a.data with
  | null => rw [hd] at hr; exact hr
  | small => rw [hd] at hr; exact hr
  | heap b =>
    rw [hd] at hr
    simp only [region] at hr ⊢
    cases hg : h[b]? with
    | none => simp [hg] at hr
    | some blk =>
      rw [hf.2 b (lt_of_getElem?_some hg) (hne b hd), hg]
      simpa [hg] using hr

theorem memmove_from {h : Heap TYPE} {c : Array TYPE} {cells vs : List (Cell TYPE)}
    (doff : Nat) (sc : Array TYPE) (src : DataPtr) (soff size : Nat)
    (hr : region h c c.data = Except.ok cells)
    (hl : load h sc src soff (nslots size) = Except.ok vs)
    (hb : doff + vs.length ≤ cells.length) :
    ∃ h2 c2, memmove h c c.data doff sc src soff size = Except.ok (h2, c2) ∧
      region h2 c2 c2.data = Except.ok (patch cells doff vs) ∧
      c2.dim = c.dim ∧ c2.data = c.data ∧ c2.allocdim = c.allocdim ∧
      c2.smallarray.length = c.smallarray.length ∧
      FrameOf c.data h h2 ∧ h2.length = h.length := by
  obtain ⟨h2, c2, hst, rest⟩ := store_spec doff vs hr hb
  exact ⟨h2, c2, by simp only [memmove, hl, hst], rest⟩

theorem fresh_ne {h : Heap TYPE} {p q : DataPtr} {b : Nat} (hq : Fresh h p q)
    (hb : b < h.length) (hne : DataPtr.heap b ≠ p) : DataPtr.heap b ≠ q := by
  rcases hq with rfl | rfl | ⟨k, rfl, hk⟩
  · exact hne
  · simp
  · intro e; injection e with e; omega

theorem insertArray_core {h : Heap TYPE} {c a : Array TYPE} {xs ys : List (Cell TYPE)} (i : Nat)
    (hwf : WellFormed h c) (hdisc : Discriminated c) (he : c.elems h = Except.ok xs)
    (hwa : WellFormed h a) (hea : a.elems h = Except.ok ys) (hsep : Separate c a)
    (hi : i ≤ c.dim) (hfit : (c.dim + a.dim) * PTR_SIZE < SIZE_MOD) :
    ∃ h2 c2, c.insertArray h i (some a) = Except.ok (h2, c2) ∧ c2.dim = c.dim + a.dim ∧
      c2.elems h2 = Except.ok (xs.take i ++ ys ++ xs.drop i) ∧
      a.elems h2 = Except.ok ys ∧ WellFormed h2 a ∧
      WellFormed h2 c2 ∧ Discriminated c2 ∧ FrameOf c.data h h2 ∧ Fresh h c.data c2.data := by
  obtain ⟨h1, c1, free, hres, hreg1, hd1, hcap, hwf1, hdisc1, hfr1, hfresh1⟩ :=
    reserve_spec a.dim hwf hdisc he hfit
  obtain ⟨-, -, hxl⟩ := region_of_elems he
  obtain ⟨resta, hra, hyl⟩ := region_of_elems hea
  obtain ⟨cells1, hr1, hcl1⟩ := region_of_wf hwf1
  rw [hreg1] at hr1
  injection hr1 with hr1
  subst hr1
  have hfl : ys.length ≤ free.length := by simp at hcl1; omega
  have hb1 : c1.allocdim * PTR_SIZE < SIZE_MOD := hwf1.2.2.2
  have hain : ∀ b, a.data = DataPtr.heap b → b < h.length := by
    intro b hb
    rw [hb] at hra
    simp only [region] at hra
    cases hg : h[b]? with
    | none => simp [hg] at hra
    | some blk => exact lt_of_getElem?_some hg
  have hane : ∀ b, a.data = DataPtr.heap b → DataPtr.heap b ≠ c.data :=
    fun b hb e => hsep b e.symm hb
  have hane1 : ∀ b, a.data = DataPtr.heap b → DataPtr.heap b ≠ c1.data :=
    fun b hb => fresh_ne hfresh1 (hain b hb) (hane b hb)
  -- the tail moves up
  have hmoved : ∃ h2 c2,
      (if c1.dim ≠ i then
          memmove h1 c1 c1.data (i + a.dim) c1 c1.data i (nbytes (szSub c1.dim i))
        else Except.ok (h1, c1)) = Except.ok (h2, c2) ∧
      region h2 c2 c2.data = Except.ok (patch (xs ++ free) (i + ys.length)
        (((xs ++ free).drop i).take (xs.length - i))) ∧
      c2.dim = c1.dim ∧ c2.data = c1.data ∧ c2.allocdim = c1.allocdim ∧
      c2.smallarray.length = c1.smallarray.length ∧ FrameOf c1.data h1 h2 := by
    by_cases hne : c1.dim ≠ i
    · rw [if_pos hne]
      have hcnt : nslots (nbytes (szSub c1.dim i)) = xs.length - i := by
        rw [szSub_eq (by omega) (by unfold PTR_SIZE SIZE_MOD at *; omega),
          nslots_nbytes (by unfold PTR_SIZE SIZE_MOD at *; omega)]
        omega
      obtain ⟨h2, c2, hmv, hreg2, hd2, hp2, ha2, hs2, hf2, -⟩ :=
        memmove_self (i + a.dim) i (nbytes (szSub c1.dim i)) hreg1
          (by rw [hcnt]; simp; omega) (by rw [hcnt]; simp; omega)
      rw [hcnt, ← hyl] at hreg2
      exact ⟨h2, c2, hmv, hreg2, hd2, hp2, ha2, hs2, hf2⟩
    · rw [if_neg hne]
      have hz : xs.length - i = 0 := by omega
      refine ⟨h1, c1, rfl, ?_, rfl, rfl, rfl, rfl, FrameOf.refl _ _⟩
      rw [hz, List.take_zero, patch_nil]; exact hreg1
  obtain ⟨h2, c2, hmv, hreg2, hd2, hp2, ha2, hs2, hf2⟩ := hmoved
  -- the elements of `a` are copied into the gap
  have hra1 : region h1 a a.data = Except.ok (ys ++ resta) := region_frame a hfr1 hra hane
  have hra2 : region h2 a a.data = Except.ok (ys ++ resta) := region_frame a hf2 hra1 hane1
  have hda : nslots (nbytes a.dim) = ys.length := by
    rw [nslots_nbytes (by unfold PTR_SIZE SIZE_MOD at *; omega), hyl]
  have hld : load h2 a a.data 0 (nslots (nbytes a.dim)) = Except.ok ys := by
    rw [load_of_region hra2 0 _ (by rw [hda]; simp), hda]; simp
  obtain ⟨h3, c3, hcp, hreg3, hd3, hp3, ha3, hs3, hf3, -⟩ :=
    memmove_from i a a.data 0 (nbytes a.dim) hreg2 hld
      (by rw [patch_length _ _ _ (by simp; omega)]; simp; omega)
  rw [shift_right_cells xs free ys i (by omega) hfl] at hreg3
  have hadd : szAdd c3.dim a.dim = c.dim + a.dim := by
    rw [hd3, hd2, hd1]; exact szAdd_eq (lt_SIZE_MOD_of_bytes hfit)
  have hreg4 := (region_setDim h3 c3 c3.data (szAdd c3.dim a.dim)).trans hreg3
  have hra3 : region h3 a a.data = Except.ok (ys ++ resta) :=
    region_frame a hf3 hra2 (fun b hb => by rw [hp2]; exact hane1 b hb)
  refine ⟨h3, { c3 with dim := szAdd c3.dim a.dim }, ?_, hadd, ?_, ?_, ?_, ?_, ?_, ?_, ?_⟩
  · simp only [Array.insertArray, hres, hmv, hcp]
  · refine elems_of_region_append hreg4 ?_
    simp only [hadd]; simp; omega
  · exact elems_of_region_append hra3 hyl.symm
  · exact wf_intro hra3 (by
      obtain ⟨cs, hcs, hcl⟩ := region_of_wf hwa
      rw [hra] at hcs; injection hcs with hcs; rw [hcs]; exact hcl) hwa.1 hwa.2.1 hwa.2.2.2
  · refine wf_intro hreg4 ?_ ?_ ?_ ?_
    · simp only [ha3, ha2]; simp at hcl1 ⊢; omega
    · simp only [hadd, ha3, ha2]; omega
    · simp only [hs3, hs2]; exact hwf1.2.1
    · simp only [ha3, ha2]; exact hb1
  · intro e2
    have e3 : c3.allocdim = SMALLARRAYCAP := e2
    show c3.data = DataPtr.small
    rw [hp3, hp2]; exact hdisc1 (by rw [← ha2, ← ha3]; exact e3)
  · have hq2 : Fresh h c.data c2.data := by rw [hp2]; exact hfresh1
    exact (hfr1.trans hf2 hfresh1).trans hf3 hq2
  · show Fresh h c.data c3.data
    rw [hp3, hp2]; exact hfresh1

/-! ## `shift(ptr)` -/

theorem shift_core {h : Heap TYPE} {c : Array TYPE} {xs : List (Cell TYPE)}
    (e : Cell TYPE) (hwf : WellFormed h c) (hdisc : Discriminated c)
    (he : c.elems h = Except.ok xs) (hfit : (c.dim + 1) * PTR_SIZE < SIZE_MOD) :
    ∃ h2 c2, c.shift h e = Except.ok (h2, c2) ∧ c2.dim = c.dim + 1 ∧
      c2.elems h2 = Except.ok (e :: xs) ∧
      WellFormed h2 c2 ∧ Discriminated c2 ∧ FrameOf c.data h h2 ∧ Fresh h c.data c2.data := by
  obtain ⟨h1, c1, free, hres, hreg1, hd1, hcap, hwf1, hdisc1, hfr1, hfresh1⟩ :=
    reserve_spec 1 hwf hdisc he hfit
  obtain ⟨-, -, hxl⟩ := region_of_elems he
  obtain ⟨cells1, hr1, hcl1⟩ := region_of_wf hwf1
  rw [hreg1] at hr1
  injection hr1 with hr1
  subst hr1
  have hfl : 1 ≤ free.length := by simp at hcl1; omega
  have hb1 : c1.allocdim * PTR_SIZE < SIZE_MOD := hwf1.2.2.2
  have hcnt : nslots (nbytes c1.dim) = xs.length - 0 := by
    rw [nslots_nbytes (by unfold PTR_SIZE SIZE_MOD at *; omega)]
    omega
  obtain ⟨h2, c2, hmv, hreg2, hd2, hp2, ha2, hs2, hf2, hl2⟩ :=
    memmove_self 1 0 (nbytes c1.dim) hreg1
      (by rw [hcnt]; simp) (by rw [hcnt]; simp; omega)
  rw [hcnt] at hreg2
  obtain ⟨h3, c3, hpk, hreg3, hd3, hp3, ha3, hs3, hf3, hl3⟩ :=
    store_spec 0 [e] hreg2 (by rw [patch_length _ _ _ (by simp; omega)]; simp; omega)
  have hfin := shift_right_cells xs free [e] 0 (by omega) (by simpa using hfl)
  simp only [List.length_singleton, Nat.zero_add, List.take_zero, List.drop_zero,
    List.nil_append, List.singleton_append] at hfin
  simp only [List.drop_zero] at hreg3
  rw [hfin] at hreg3
  have hadd : szAdd c3.dim 1 = c.dim + 1 := by
    rw [hd3, hd2, hd1]; exact szAdd_eq (lt_SIZE_MOD_of_bytes hfit)
  have hreg4 := (region_setDim h3 c3 c3.data (szAdd c3.dim 1)).trans hreg3
  refine ⟨h3, { c3 with dim := szAdd c3.dim 1 }, ?_, hadd, ?_, ?_, ?_, ?_, ?_⟩
  · simp only [Array.shift, hres, hmv, poke, hpk]
  · refine elems_of_region_append hreg4 ?_
    simp only [hadd]; simp; omega
  · refine wf_intro hreg4 ?_ ?_ ?_ ?_
    · simp only [ha3, ha2]; simp at hcl1 ⊢; omega
    · simp only [hadd, ha3, ha2]; omega
    · simp only [hs3, hs2]; exact hwf1.2.1
    · simp only [ha3, ha2]; exact hb1
  · intro e2
    have e3 : c3.allocdim = SMALLARRAYCAP := e2
    show c3.data = DataPtr.small
    rw [hp3, hp2]; exact hdisc1 (by rw [← ha2, ← ha3]; exact e3)
  · have hq2 : Fresh h c.data c2.data := by rw [hp2]; exact hfresh1
    exact (hfr1.trans hf2 hfresh1).trans hf3 hq2
  · show Fresh h c.data c3.data
    rw [hp3, hp2]; exact hfresh1

/-! ## `setDim(newdim)` and `copy()` -/

theorem elems_of_wf {h : Heap TYPE} {c : Array TYPE} (hwf : WellFormed h c) :
    ∃ xs, c.elems h = Except.ok xs := by
  obtain ⟨cells, hr, hl⟩ := region_of_wf hwf
  exact ⟨_, elems_of_region hr (by rw [hl]; exact hwf.1)⟩

theorem setDim_total {h : Heap TYPE} {c : Array TYPE} (n : Nat) (hwf : WellFormed h c)
    (hn : n * PTR_SIZE < SIZE_MOD) :
    ∃ h2 c2, c.setDim h n = Except.ok (h2, c2) ∧ c2.dim = n ∧ WellFormed h2 c2 ∧
      FrameOf c.data h h2 ∧ Fresh h c.data c2.data ∧ (Discriminated c → Discriminated c2) ∧
      (n ≤ c.allocdim → h2 = h ∧ c2 = { c with dim := n }) := by
  obtain ⟨xs, he⟩ := elems_of_wf hwf
  unfold Array.setDim
  by_cases hlt : c.dim < n
  · rw [if_pos hlt, szSub_eq (Nat.le_of_lt hlt) (lt_SIZE_MOD_of_bytes hn)]
    obtain ⟨h2, c2, free, ys, hres, hreg, -, hd, hdim, hcap, hwf2, hfr, hfresh, hnoop, -⟩ :=
      reserve_total (n - c.dim) hwf he (by
        have : c.dim + (n - c.dim) = n := by omega
        rw [this]; exact hn)
    obtain ⟨cells, hr2, hl2⟩ := region_of_wf hwf2
    have hreg3 := (region_setDim h2 c2 c2.data n).trans hr2
    refine ⟨h2, { c2 with dim := n }, by rw [hres], rfl, ?_, hfr, hfresh,
      fun hdc => (hd hdc).2, ?_⟩
    · exact wf_intro hreg3 hl2 (by show n ≤ c2.allocdim; omega) hwf2.2.1 hwf2.2.2.2
    · intro hle
      obtain ⟨e1, e2⟩ := hnoop (by omega)
      subst e1 e2
      exact ⟨rfl, rfl⟩
  · rw [if_neg hlt]
    obtain ⟨cells, hr, hl⟩ := region_of_wf hwf
    have hreg3 := (region_setDim h c c.data n).trans hr
    refine ⟨h, { c with dim := n }, rfl, rfl, ?_, FrameOf.refl _ _, Or.inl rfl,
      fun hdc => hdc, fun _ => ⟨rfl, rfl⟩⟩
    exact wf_intro hreg3 hl (by show n ≤ c.allocdim; have := hwf.1; omega) hwf.2.1 hwf.2.2.2

theorem elems_ctor (h : Heap TYPE) : (Array.ctor : Array TYPE).elems h = Except.ok [] := by
  simp [Array.elems, load, region, Array.ctor, SMALLARRAYCAP]

theorem disc_ctor : Discriminated (Array.ctor : Array TYPE) :=
  fun _ => by simp [Array.ctor, SMALLARRAYCAP]

/-- The new container of `copy()` before the elements are copied: inline
for at most `SMALLARRAYCAP` elements, a new heap block otherwise. -/
theorem setDim_ctor (h : Heap TYPE) (n : Nat) (hn : n * PTR_SIZE < SIZE_MOD) :
    ∃ h2 c2, (Array.ctor : Array TYPE).setDim h n = Except.ok (h2, c2) ∧ c2.dim = n ∧
      WellFormed h2 c2 ∧ Discriminated c2 ∧ FrameOf DataPtr.small h h2 ∧
      (c2.data = DataPtr.small ∨ ∃ k, c2.data = DataPtr.heap k ∧ h.length ≤ k) ∧
      (n ≤ SMALLARRAYCAP → c2.data = DataPtr.small ∧ h2 = h) ∧
      (SMALLARRAYCAP < n → ∃ k, c2.data = DataPtr.heap k ∧ h.length ≤ k) := by
  obtain ⟨h2, c2, hset, hd, hwf, hfr, hfresh, hdisc, hnoop⟩ :=
    setDim_total n (wf_ctor h) hn
  have hdata : (Array.ctor : Array TYPE).data = DataPtr.small := rfl
  have hp : c2.data = DataPtr.small ∨ ∃ k, c2.data = DataPtr.heap k ∧ h.length ≤ k := by
    rcases hfresh with e | e | e
    · left; rw [e]; exact hdata
    · left; exact e
    · right; exact e
  refine ⟨h2, c2, hset, hd, hwf, hdisc disc_ctor, hfr, hp, ?_, ?_⟩
  · intro hle
    obtain ⟨e1, e2⟩ := hnoop hle
    rw [e2]
    exact ⟨hdata, e1⟩
  · intro hgt
    rcases hp with e | e
    · exfalso
      obtain ⟨cells, hr, hl⟩ := region_of_wf hwf
      rw [e] at hr
      simp only [region] at hr
      injection hr with hr
      have h1 := hwf.1
      have h2 := hwf.2.1
      rw [hr] at h2
      omega
    · exact e

theorem patch_getElem_self (cells : List (Cell TYPE)) (j : Nat) (v : Cell TYPE)
    (hj : j < cells.length) : (patch cells j [v])[j]? = some v := by
  have hl : (cells.take j).length = j := by simp; omega
  simp only [patch]
  rw [List.append_assoc, List.getElem?_append_right (by omega), hl]
  simp

theorem opIndexAssign_spec {h : Heap TYPE} {c : Array TYPE} {cells : List (Cell TYPE)}
    (j : Nat) (v : Cell TYPE) (hr : region h c c.data = Except.ok cells)
    (hj : j < cells.length) :
    ∃ h3 c3, c.opIndexAssign h j v = Except.ok (h3, c3) ∧ c3.opIndex h3 j = Except.ok v ∧
      c3.dim = c.dim ∧ c3.data = c.data ∧ FrameOf c.data h h3 := by
  obtain ⟨h3, c3, hst, hreg3, hd3, hp3, -, -, hf3, -⟩ :=
    store_spec j [v] hr (by simp; omega)
  exact ⟨h3, c3, hst, peek_of_region hreg3 j v (patch_getElem_self cells j v hj), hd3, hp3, hf3⟩

theorem heap_index_of_region {h : Heap TYPE} {c : Array TYPE} {cells : List (Cell TYPE)}
    {b : Nat} (hr : region h c c.data = Except.ok cells) (hb : c.data = DataPtr.heap b) :
    b < h.length := by
  rw [hb] at hr
  simp only [region] at hr
  cases hg : h[b]? with
  | none => simp [hg] at hr
  | some blk => exact lt_of_getElem?_some hg

theorem copy_core {h : Heap TYPE} {c : Array TYPE} {xs : List (Cell TYPE)}
    (hwf : WellFormed h c) (he : c.elems h = Except.ok xs) :
    ∃ h2 a, c.copy h = Except.ok (h2, a) ∧ a.dim = c.dim ∧ a.elems h2 = Except.ok xs ∧
      WellFormed h2 a ∧ Discriminated a ∧ c.elems h2 = Except.ok xs ∧ WellFormed h2 c ∧
      (a.data = DataPtr.small ∨ ∃ k, a.data = DataPtr.heap k ∧ h.length ≤ k) ∧
      (c.dim ≤ SMALLARRAYCAP → a.data = DataPtr.small) ∧
      (SMALLARRAYCAP < c.dim → ∃ k, a.data = DataPtr.heap k ∧ h.length ≤ k) ∧
      FrameOf DataPtr.small h h2 := by
  have hwf0 : WellFormed h c := hwf
  obtain ⟨hdim, hsm, -, hbytes⟩ := hwf
  obtain ⟨free, hr, hxl⟩ := region_of_elems he
  obtain ⟨cells, hr0, hcl⟩ := region_of_wf hwf0
  have hdb : c.dim * PTR_SIZE < SIZE_MOD := by unfold PTR_SIZE SIZE_MOD at *; omega
  obtain ⟨h1, a0, hset, hd0, hwa0, hdisc0, hfr0, hp0, hsmall0, hheap0⟩ := setDim_ctor h c.dim hdb
  obtain ⟨cells0, hra0, hcl0⟩ := region_of_wf hwa0
  have hr1 : region h1 c c.data = Except.ok (xs ++ free) :=
    region_frame c hfr0 hr (fun b _ => by simp)
  have hcnt : nslots (nbytes c.dim) = xs.length := by rw [nslots_nbytes hdb, hxl]
  have hld : load h1 c c.data 0 (nslots (nbytes c.dim)) = Except.ok xs := by
    rw [load_of_region hr1 0 _ (by rw [hcnt]; simp), hcnt]; simp
  have hle0 : xs.length ≤ cells0.length := by have := hwa0.1; omega
  obtain ⟨h2, a, hcp, hreg2, hd2, hp2, ha2, hs2, hf2, -⟩ :=
    memmove_from 0 c c.data 0 (nbytes c.dim) hra0 hld (by omega)
  have hpatch : patch cells0 0 xs = xs ++ cells0.drop xs.length := by simp [patch]
  rw [hpatch] at hreg2
  have hfresh0 : Fresh h DataPtr.small a0.data := by
    rcases hp0 with e | e
    · exact Or.inl e
    · exact Or.inr (Or.inr e)
  have hfr2 : FrameOf DataPtr.small h h2 := hfr0.trans hf2 hfresh0
  have hr2 : region h2 c c.data = Except.ok (xs ++ free) :=
    region_frame c hfr2 hr (fun b _ => by simp)
  refine ⟨h2, a, ?_, by rw [hd2, hd0], ?_, ?_, ?_, ?_, ?_, ?_, ?_, ?_, hfr2⟩
  · simp only [Array.copy, hset]; exact hcp
  · exact elems_of_region_append hreg2 (by rw [hd2, hd0, hxl])
  · refine wf_intro hreg2 ?_ ?_ ?_ ?_
    · rw [ha2]; simp; omega
    · rw [hd2, ha2]; exact hwa0.1
    · rw [hs2]; exact hwa0.2.1
    · rw [ha2]; exact hwa0.2.2.2
  · intro e; rw [hp2]; exact hdisc0 (by rw [← ha2]; exact e)
  · exact elems_of_region_append hr2 hxl.symm
  · exact wf_intro hr2 (by rw [hr] at hr0; injection hr0 with e; rw [e]; exact hcl) hdim hsm
      hbytes
  · rw [hp2]; exact hp0
  · intro hle; rw [hp2]; exact (hsmall0 hle).1
  · intro hgt; rw [hp2]; exact hheap0 hgt

/-! ## `toChars()` -/

theorem commaEach_length (buf : List (List Char)) :
    (commaEach buf).length = (buf.map (fun s => s.length + 1)).sum := by
  induction buf with
  | nil => rfl
  | cons s rest ih => simp [commaEach, ih]; omega

theorem intercalate_cons (s : List Char) (rest : List (List Char)) :
    List.intercalate [','] (s :: rest) = s ++ commaEach rest := by
  induction rest generalizing s with
  | nil => simp [List.intercalate, commaEach]
  | cons t rest ih =>
    have h2 := ih t
    simp only [List.intercalate, List.intersperse] at h2 ⊢
    simp only [List.flatten_cons] at h2 ⊢
    rw [h2]
    simp [commaEach]

theorem strWrite_ok (cap : Nat) (str bytes : List Char)
    (hb : str.length + bytes.length ≤ cap) : strWrite cap str bytes = Except.ok (str ++ bytes) := by
  simp [strWrite, hb]

theorem toCharsFill_next (cap : Nat) (buf : List (List Char)) :
    ∀ (u : Nat) (str : List Char), u ≠ 0 → str.length + (commaEach buf).length ≤ cap →
      toCharsFill cap buf u str = Except.ok (str ++ commaEach buf) := by
  induction buf with
  | nil => intro u str _ _; simp [toCharsFill, commaEach]
  | cons s rest ih =>
    intro u str hu hb
    simp only [commaEach, List.length_cons, List.length_append] at hb
    simp only [toCharsFill, if_pos hu]
    rw [strWrite_ok cap str [','] (by simp; omega)]
    simp only
    rw [strWrite_ok cap (str ++ [',']) s (by simp; omega)]
    simp only
    rw [ih (u + 1) _ (by omega) (by simp; omega)]
    simp [commaEach]

theorem toCharsFill_first (cap : Nat) (s : List Char) (rest : List (List Char))
    (str : List Char) (hb : str.length + s.length + (commaEach rest).length ≤ cap) :
    toCharsFill cap (s :: rest) 0 str = Except.ok (str ++ s ++ commaEach rest) := by
  simp only [toCharsFill, ne_eq, not_true_eq_false, if_false]
  rw [strWrite_ok cap str s (by omega)]
  simp only
  rw [toCharsFill_next cap rest 1 _ (by omega) (by simp; omega)]

theorem toCharsCollect_ok (f : TYPE → List Char) (h : Heap TYPE) (c : Array TYPE)
    (bufslots : Nat) {cells : List (Cell TYPE)} (hr : region h c c.data = Except.ok cells)
    (as : List TYPE) :
    ∀ (u : Nat) (buf : List (List Char)) (len : Nat) (rest : List (Cell TYPE)),
      cells.drop u = as.map Cell.ptr ++ rest → u + as.length ≤ bufslots →
      len + ((as.map f).map (fun s => s.length + 1)).sum < SIZE_MOD →
      toCharsCollect f h c bufslots as.length u buf len =
        Except.ok (buf ++ as.map f, len + ((as.map f).map (fun s => s.length + 1)).sum) := by
  induction as with
  | nil => intro u buf len rest _ _ _; simp [toCharsCollect]
  | cons a as ih =>
    intro u buf len rest hd hb hl
    simp only [List.map_cons, List.sum_cons, List.length_cons, List.cons_append] at hd hb hl
    have hu : cells[u]? = some (Cell.ptr a) := by
      have := congrArg (fun l => l[0]?) hd
      simpa using this
    have hd2 : cells.drop (u + 1) = as.map Cell.ptr ++ rest := by
      have := congrArg (fun l => l.drop 1) hd
      simpa [Nat.add_comm] using this
    have hpk : peek h c c.data u = Except.ok (Cell.ptr a) := peek_of_region hr u _ hu
    have h1 : szAdd (f a).length 1 = (f a).length + 1 := szAdd_eq (by omega)
    have h2 : szAdd len ((f a).length + 1) = len + ((f a).length + 1) := szAdd_eq (by omega)
    simp only [List.length_cons, toCharsCollect, hpk, if_pos (by omega : u < bufslots), h1, h2]
    rw [ih (u + 1) _ _ rest hd2 (by omega) (by omega)]
    simp only [List.map_cons, List.sum_cons, List.append_assoc, List.singleton_append]
    congr 2
    omega

theorem toCharsEmit_ok (s : List Char) (rest : List (List Char)) :
    toCharsEmit (renderSize (s :: rest)) (s :: rest) =
      Except.ok (renderSpec (s :: rest) ++ [Char.ofNat 0]) := by
  have hc := commaEach_length rest
  have hsz : renderSize (s :: rest) = s.length + (commaEach rest).length + 3 := by
    simp only [renderSize, List.map_cons, List.sum_cons, hc]; omega
  rw [hsz]
  simp only [toCharsEmit]
  rw [strWrite_ok _ [] ['['] (by simp)]
  simp only [List.nil_append]
  rw [toCharsFill_first _ s rest ['['] (by simp; omega)]
  simp only
  rw [strWrite_ok _ _ [']'] (by simp only [List.length_append, List.length_singleton]; omega)]
  simp only
  rw [strWrite_ok _ _ [Char.ofNat 0]
    (by simp only [List.length_append, List.length_singleton]; omega)]
  simp [renderSpec, intercalate_cons]

/-- For a non-empty container of non-null elements `toChars()` computes the
size `renderSize`, fills the block exactly, and returns the form
`[e0,e1,...]`. -/
theorem toChars_nonempty (f : TYPE → List Char) (h : Heap TYPE) (c : Array TYPE) (a : TYPE)
    (as : List TYPE) (hwf : WellFormed h c)
    (he : c.elems h = Except.ok ((a :: as).map Cell.ptr))
    (hfit : renderSize ((a :: as).map f) < SIZE_MOD) :
    c.toCharsLen f h = Except.ok ((a :: as).map f, renderSize ((a :: as).map f)) ∧
      toCharsEmit (renderSize ((a :: as).map f)) ((a :: as).map f) =
        Except.ok (renderSpec ((a :: as).map f) ++ [Char.ofNat 0]) ∧
      c.toChars f h = Except.ok (renderSpec ((a :: as).map f)) := by
  obtain ⟨hdim, -, -, hbytes⟩ := hwf
  obtain ⟨free, hr, hxl⟩ := region_of_elems he
  have hd : c.dim = (a :: as).length := by rw [← hxl]; simp
  have hslots : nslots (nbytes c.dim) = c.dim :=
    nslots_nbytes (by unfold PTR_SIZE SIZE_MOD at *; omega)
  have hlen : c.toCharsLen f h =
      Except.ok ((a :: as).map f, renderSize ((a :: as).map f)) := by
    unfold Array.toCharsLen
    rw [hslots, hd]
    have := toCharsCollect_ok f h c (a :: as).length hr (a :: as) 0 [] 2 free
      (by simp) (by simp) (by simpa [renderSize] using hfit)
    rw [this]
    simp [renderSize]
  have hemit := toCharsEmit_ok (f a) (as.map f)
  rw [← List.map_cons] at hemit
  refine ⟨hlen, hemit, ?_⟩
  unfold Array.toChars
  rw [hlen]
  simp only
  rw [hemit]
  simp

/-! ## `apply(fp, param)` -/

theorem applyLoop_eq {σ : Type} (f : TYPE → σ → Int × σ) (h : Heap TYPE) (c : Array TYPE)
    {cells : List (Cell TYPE)} (hr : region h c c.data = Except.ok cells)
    (xs : List (Cell TYPE)) :
    ∀ (u : Nat) (s : σ) (rest : List (Cell TYPE)), cells.drop u = xs ++ rest →
      Cell.junk ∉ xs →
      applyLoop f h c xs.length u s = Except.ok (traverseSpec f (nonNull xs) s) := by
  induction xs with
  | nil => intro u s rest _ _; rfl
  | cons x xs ih =>
    intro u s rest hd hj
    have hu : cells[u]? = some x := by
      have := congrArg (fun l => l[0]?) hd
      simpa using this
    have hd2 : cells.drop (u + 1) = xs ++ rest := by
      have := congrArg (fun l => l.drop 1) hd
      simpa [Nat.add_comm] using this
    have hpk : c.opIndex h u = Except.ok x := peek_of_region hr u _ hu
    have hj2 : Cell.junk ∉ xs := fun hm => hj (List.mem_cons_of_mem _ hm)
    have ih2 := fun s2 => ih (u + 1) s2 rest hd2 hj2
    cases x with
    | junk => exact absurd (List.mem_cons_self _ _) hj
    | null => simp only [List.length_cons, applyLoop, hpk, nonNull, ih2]
    | ptr e =>
      simp only [List.length_cons, applyLoop, hpk, nonNull, traverseSpec, ih2]
      split <;> rfl

theorem visitAll_cons {σ : Type} (f : TYPE → σ → Int × σ) (e : TYPE) (es : List TYPE) (s : σ) :
    visitAll f (e :: es) s = visitAll f es (f e s).2 := rfl

/-- What the walk of the spec does: it stops at the first element whose
traversal signals stop, having visited the elements up to it in order, or it
visits all of them. -/
theorem traverseSpec_cases {σ : Type} (f : TYPE → σ → Int × σ) (es : List TYPE) :
    ∀ s : σ,
      (∃ k e, es[k]? = some e ∧
        (∀ j e2, j < k → es[j]? = some e2 → (f e2 (visitAll f (es.take j) s)).1 = 0) ∧
        (f e (visitAll f (es.take k) s)).1 ≠ 0 ∧
        traverseSpec f es s = (1, visitAll f (es.take (k + 1)) s)) ∨
      ((∀ j e2, es[j]? = some e2 → (f e2 (visitAll f (es.take j) s)).1 = 0) ∧
        traverseSpec f es s = (0, visitAll f es s)) := by
  induction es with
  | nil =>
    intro s
    right
    exact ⟨fun j e2 hj => by simp at hj, rfl⟩
  | cons e es ih =>
    intro s
    by_cases hstop : (f e s).1 ≠ 0
    · left
      refine ⟨0, e, by simp, fun j e2 hj _ => absurd hj (Nat.not_lt_zero _), hstop, ?_⟩
      simp only [traverseSpec, if_pos hstop]
      rfl
    · have hgo : (f e s).1 = 0 := not_not.mp hstop
      rcases ih (f e s).2 with ⟨k, e1, hk, hbefore, hat, hres⟩ | ⟨hall, hres⟩
      · left
        refine ⟨k + 1, e1, by simpa using hk, ?_, ?_, ?_⟩
        · intro j e2 hj hj2
          cases j with
          | zero =>
            simp only [List.getElem?_cons_zero, Option.some.injEq] at hj2
            subst hj2
            exact hgo
          | succ j =>
            simp only [List.getElem?_cons_succ] at hj2
            simp only [List.take_succ_cons, visitAll_cons]
            exact hbefore j e2 (by omega) hj2
        · simpa only [List.take_succ_cons, visitAll_cons] using hat
        · simp only [traverseSpec, if_neg hstop, hres, List.take_succ_cons, visitAll_cons]
      · right
        refine ⟨?_, ?_⟩
        · intro j e2 hj2
          cases j with
          | zero =>
            simp only [List.getElem?_cons_zero, Option.some.injEq] at hj2
            subst hj2
            exact hgo
          | succ j =>
            simp only [List.getElem?_cons_succ] at hj2
            simp only [List.take_succ_cons, visitAll_cons]
            exact hall j e2 hj2
        · simp only [traverseSpec, if_neg hstop, hres, visitAll_cons]

/-! ## More on `reserve` and `setDim` -/

theorem block_of_region {h : Heap TYPE} {c : Array TYPE} {k : Nat} {cells : List (Cell TYPE)}
    (hr : region h c (DataPtr.heap k) = Except.ok cells) :
    ∃ blk, h[k]? = some blk ∧ blk.live = true ∧ blk.cells = cells := by
  simp only [region] at hr
  cases hg : h[k]? with
  | none => simp [hg] at hr
  | some blk =>
    simp only [hg] at hr
    split at hr
    · rename_i hlive
      injection hr with hr
      exact ⟨blk, rfl, hlive, hr⟩
    · cases hr

theorem reserve_zeroed (h : Heap TYPE) (c : Array TYPE) (n : Nat) (hz : Zeroed c)
    (hn : n * PTR_SIZE < SIZE_MOD) :
    (n = 0 → c.reserve h n = Except.ok (h, c)) ∧
    (0 < n → n ≤ SMALLARRAYCAP → c.reserve h n =
      Except.ok (h, { c with allocdim := SMALLARRAYCAP, data := DataPtr.small })) ∧
    (SMALLARRAYCAP < n → c.reserve h n =
      Except.ok (h ++ [⟨true, List.replicate n Cell.junk⟩],
        { c with allocdim := n, data := DataPtr.heap h.length })) := by
  obtain ⟨hd, ha, hp⟩ := hz
  have hs : szSub c.allocdim c.dim = 0 := by
    rw [ha, hd]; exact szSub_eq (Nat.le_refl 0) (by unfold SIZE_MOD; omega)
  refine ⟨?_, ?_, ?_⟩
  · intro h0
    unfold Array.reserve
    rw [hs, if_neg (by omega)]
  · intro hpos hle
    unfold Array.reserve
    rw [hs, if_pos hpos, if_pos ha, if_pos hle]
    simp [SMALLARRAYCAP]
  · intro hgt
    unfold Array.reserve
    rw [hs, if_pos (by unfold SMALLARRAYCAP at hgt; omega), if_pos ha, if_neg (by omega)]
    simp [mem_malloc, nslots_nbytes hn]

/-! ## `fixDim()` -/

/-- After `fixDim()` has moved at most `SMALLARRAYCAP` elements to the inline
buffer, `reserve(1)` does not look at `data`: it goes on as for the inline
container. -/
theorem reserve_after_shrink (h : Heap TYPE) (s : Array TYPE) (ha : s.allocdim = s.dim)
    (hd : s.dim ≤ SMALLARRAYCAP) :
    s.reserve h 1 =
      ({ s with data := DataPtr.small, allocdim := SMALLARRAYCAP } : Array TYPE).reserve h 1 := by
  have hM : (1 : Nat) < SIZE_MOD := by unfold SIZE_MOD; omega
  unfold SMALLARRAYCAP at hd
  rcases Nat.lt_or_ge s.dim 1 with h0 | h1
  · have hz : s.dim = 0 := by omega
    have ha0 : s.allocdim = 0 := by omega
    have h00 : szSub 0 s.dim = 0 := by
      rw [hz]; exact szSub_eq (Nat.le_refl _) (by omega)
    have h10 : szSub 1 s.dim = 1 := by
      rw [hz]; exact szSub_eq (Nat.zero_le _) hM
    unfold Array.reserve
    simp only [ha0, h00, h10, SMALLARRAYCAP, Nat.lt_irrefl, if_false, if_true, Nat.zero_lt_one,
      Nat.le_refl, ne_eq, Nat.one_ne_zero, not_false_eq_true]
  · have hz : s.dim = 1 := by omega
    have ha1 : s.allocdim = 1 := by omega
    have h11 : szSub 1 s.dim = 0 := by
      rw [hz]; exact szSub_eq (Nat.le_refl _) hM
    unfold Array.reserve
    simp only [ha1, h11, SMALLARRAYCAP, Nat.zero_lt_one, if_true, Nat.one_ne_zero, if_false]

theorem push_after_shrink (h : Heap TYPE) (s : Array TYPE) (y : Cell TYPE)
    (ha : s.allocdim = s.dim) (hd : s.dim ≤ SMALLARRAYCAP) :
    s.push h y =
      ({ s with data := DataPtr.small, allocdim := SMALLARRAYCAP } : Array TYPE).push h y := by
  unfold Array.push
  rw [reserve_after_shrink h s ha hd]

/-- What `fixDim()` leaves on a container that is not an inline container
with a free slot: a state `c1` whose pushes go on as those of a well-formed
container `t` that holds the old elements. -/
theorem fixDim_then_push {h : Heap TYPE} {c : Array TYPE} {xs : List (Cell TYPE)}
    (hwf : WellFormed h c) (hdisc : Discriminated c) (he : c.elems h = Except.ok xs)
    (hin : c.data = DataPtr.small → c.dim = c.allocdim) :
    ∃ h1 c1 t, c.fixDim h = Except.ok (h1, c1) ∧ c1.dim = c.dim ∧ WellFormed h1 t ∧
      Discriminated t ∧ t.elems h1 = Except.ok xs ∧ t.dim = c.dim ∧
      ∀ y, c1.push h1 y = t.push h1 y := by
  have hwf0 := hwf
  obtain ⟨hdim, hsm, -, hbytes⟩ := hwf
  obtain ⟨free, hr, hxl⟩ := region_of_elems he
  unfold Array.fixDim
  by_cases heq : c.dim = c.allocdim
  · rw [if_neg (by simpa using heq)]
    exact ⟨h, c, c, rfl, rfl, hwf0, hdisc, he, rfl, fun _ => rfl⟩
  · rw [if_pos heq, if_pos (by unfold SMALLARRAYCAP; show c.allocdim ≥ 1; omega)]
    have hcnt : nslots (nbytes c.dim) = c.dim :=
      nslots_nbytes (by unfold PTR_SIZE SIZE_MOD at *; omega)
    cases hp : c.data with
    | null => rw [hp] at hr; simp [region] at hr
    | small => exact absurd (hin hp) heq
    | heap b =>
      rw [hp] at hr
      obtain ⟨blk, hb, hlive, hcells⟩ := block_of_region hr
      by_cases hk : c.dim ≤ SMALLARRAYCAP
      · rw [if_pos hk]
        have hld : load h c (DataPtr.heap b) 0 (nslots (nbytes c.dim)) = Except.ok xs := by
          rw [load_of_region hr 0 _ (by rw [hcnt]; simp; omega), hcnt, ← hxl]; simp
        have hfit : 0 + xs.length ≤ c.smallarray.length := by rw [hsm, hxl]; omega
        have hmv : memmove h c DataPtr.small 0 c (DataPtr.heap b) 0 (nbytes c.dim) =
            Except.ok (h, { c with smallarray := patch c.smallarray 0 xs }) := by
          simp only [memmove, hld, store, if_pos hfit]
        have hfree : mem_free h (DataPtr.heap b) = Except.ok (h.set b ⟨false, blk.cells⟩) := by
          simp only [mem_free, hb, hlive, if_true]
        have hpl : (patch c.smallarray 0 xs).length = SMALLARRAYCAP := by
          rw [patch_length _ _ _ hfit, hsm]
        have hpx : patch c.smallarray 0 xs = xs ++ c.smallarray.drop xs.length := by
          simp [patch]
        refine ⟨h.set b ⟨false, blk.cells⟩,
          { dim := c.dim, data := DataPtr.heap b, allocdim := c.dim,
            smallarray := patch c.smallarray 0 xs },
          { dim := c.dim, data := DataPtr.small, allocdim := SMALLARRAYCAP,
            smallarray := patch c.smallarray 0 xs }, ?_, rfl, ?_, fun _ => rfl, ?_, rfl, ?_⟩
        · simp only [hmv, hp, hfree]
        · refine @wf_intro _ _ _ (patch c.smallarray 0 xs) rfl hpl hk hpl ?_
          show SMALLARRAYCAP * PTR_SIZE < SIZE_MOD
          decide
        · refine @elems_of_region_append _ _ _ xs (c.smallarray.drop xs.length) ?_ hxl.symm
          show Except.ok (patch c.smallarray 0 xs) = _
          rw [hpx]
        · intro y
          exact push_after_shrink _ _ y rfl hk
      · rw [if_neg hk]
        have hkept : blk.cells.take (nslots (nbytes c.dim)) = xs := by
          rw [hcnt, hcells, ← hxl]; simp
        have hre : mem_realloc h (DataPtr.heap b) (nbytes c.dim) =
            Except.ok (h.set b ⟨false, blk.cells⟩ ++ [⟨true, xs⟩], DataPtr.heap h.length) := by
          simp only [mem_realloc, hb, hlive, if_true, hkept]
          rw [hcnt, hxl]; simp
        have hl := region_append_new (h.set b ⟨false, blk.cells⟩)
          ({ c with data := DataPtr.heap h.length, allocdim := c.dim } : Array TYPE)
          ⟨true, xs⟩ rfl
        simp only [List.length_set] at hl
        have hwf1 : WellFormed (h.set b ⟨false, blk.cells⟩ ++ [⟨true, xs⟩])
            ({ c with data := DataPtr.heap h.length, allocdim := c.dim } : Array TYPE) :=
          wf_intro hl hxl (Nat.le_refl _) hsm (by
            show c.dim * PTR_SIZE < SIZE_MOD
            unfold PTR_SIZE SIZE_MOD at *; omega)
        refine ⟨h.set b ⟨false, blk.cells⟩ ++ [⟨true, xs⟩],
          { c with data := DataPtr.heap h.length, allocdim := c.dim },
          { c with data := DataPtr.heap h.length, allocdim := c.dim },
          ?_, rfl, hwf1, ?_, ?_, rfl, fun _ => rfl⟩
        · simp only [hre]
        · intro e
          have e2 : c.dim = SMALLARRAYCAP := e
          omega
        · have hl2 : region (h.set b ⟨false, blk.cells⟩ ++ [⟨true, xs⟩])
              ({ c with data := DataPtr.heap h.length, allocdim := c.dim } : Array TYPE)
              (DataPtr.heap h.length) = Except.ok (xs ++ []) := by
            rw [List.append_nil]; exact hl
          exact elems_of_region_append hl2 hxl.symm

/-! ## The bookkeeping invariant -/

theorem store_fields {h h2 : Heap TYPE} {c c2 : Array TYPE} {p : DataPtr} {off : Nat}
    {vs : List (Cell TYPE)} (hs : store h c p off vs = Except.ok (h2, c2)) :
    c2.dim = c.dim ∧ c2.allocdim = c.allocdim ∧ c2.data = c.data := by
  cases p with
  | null => simp [store] at hs
  | small =>
    simp only [store] at hs
    split at hs
    · injection hs with hs
      injection hs with e1 e2
      subst e2
      exact ⟨rfl, rfl, rfl⟩
    · cases hs
  | heap b =>
    simp only [store] at hs
    split at hs
    · cases hs
    · split at hs
      · split at hs
        · injection hs with hs
          injection hs with e1 e2
          subst e2
          exact ⟨rfl, rfl, rfl⟩
        · cases hs
      · cases hs

theorem memmove_fields {h h2 : Heap TYPE} {c c2 sc : Array TYPE} {dst src : DataPtr}
    {doff soff size : Nat}
    (hs : memmove h c dst doff sc src soff size = Except.ok (h2, c2)) :
    c2.dim = c.dim ∧ c2.allocdim = c.allocdim ∧ c2.data = c.data := by
  simp only [memmove] at hs
  split at hs
  · cases hs
  · exact store_fields hs

/-- The `dim` and `allocdim` that `reserve(n)` can return. -/
theorem reserve_fields {h h2 : Heap TYPE} {c c2 : Array TYPE} {n : Nat}
    (hb : Bounded c) (hs : c.reserve h n = Except.ok (h2, c2)) :
    c2.dim = c.dim ∧
      ((n ≤ c.allocdim - c.dim ∧ c2.allocdim = c.allocdim) ∨
        (c.allocdim - c.dim < n ∧
          ((c.allocdim = 0 ∧ n ≤ SMALLARRAYCAP ∧ c2.allocdim = SMALLARRAYCAP) ∨
            (c.allocdim = 0 ∧ SMALLARRAYCAP < n ∧ c2.allocdim = n) ∨
            (c.allocdim ≠ 0 ∧ c2.allocdim = szAdd c.dim n)))) := by
  obtain ⟨hle, hlt⟩ := hb
  have hsub : szSub c.allocdim c.dim = c.allocdim - c.dim := szSub_eq hle hlt
  unfold Array.reserve at hs
  rw [hsub] at hs
  by_cases hg : c.allocdim - c.dim < n
  · rw [if_pos hg] at hs
    by_cases h0 : c.allocdim = 0
    · rw [if_pos h0] at hs
      by_cases hk : n ≤ SMALLARRAYCAP
      · rw [if_pos hk] at hs
        injection hs with hs
        injection hs with e1 e2
        subst e2
        exact ⟨rfl, Or.inr ⟨hg, Or.inl ⟨h0, hk, rfl⟩⟩⟩
      · rw [if_neg hk] at hs
        injection hs with hs
        injection hs with e1 e2
        subst e2
        exact ⟨rfl, Or.inr ⟨hg, Or.inr (Or.inl ⟨h0, Nat.lt_of_not_le hk, rfl⟩)⟩⟩
    · rw [if_neg h0] at hs
      by_cases h1 : c.allocdim = SMALLARRAYCAP
      · rw [if_pos h1] at hs
        obtain ⟨e1, e2, -⟩ := memmove_fields hs
        exact ⟨e1, Or.inr ⟨hg, Or.inr (Or.inr ⟨h0, e2⟩)⟩⟩
      · rw [if_neg h1] at hs
        simp only at hs
        split at hs
        · cases hs
        · injection hs with hs
          injection hs with e1 e2
          subst e2
          exact ⟨rfl, Or.inr ⟨hg, Or.inr (Or.inr ⟨h0, rfl⟩)⟩⟩
  · rw [if_neg hg] at hs
    injection hs with hs
    injection hs with e1 e2
    subst e2
    exact ⟨rfl, Or.inl ⟨Nat.le_of_not_lt hg, rfl⟩⟩

theorem szAdd_lt (a b : Nat) : szAdd a b < SIZE_MOD := by
  unfold szAdd SIZE_MOD; omega

theorem szSub_lt (a b : Nat) : szSub a b < SIZE_MOD := by
  unfold szSub SIZE_MOD; omega

theorem reserve_bounded {h h2 : Heap TYPE} {c c2 : Array TYPE} {n : Nat}
    (hb : Bounded c) (hn : c.dim + n < SIZE_MOD) (hs : c.reserve h n = Except.ok (h2, c2)) :
    Bounded c2 := by
  obtain ⟨hd, hcase⟩ := reserve_fields hb hs
  obtain ⟨hle, hlt⟩ := hb
  unfold Bounded
  rw [hd]
  rcases hcase with ⟨-, e⟩ | ⟨-, ⟨h0, hk, e⟩ | ⟨h0, hk, e⟩ | ⟨h0, e⟩⟩
  · rw [e]; exact ⟨hle, hlt⟩
  · rw [e]; unfold SMALLARRAYCAP SIZE_MOD; omega
  · rw [e]; omega
  · rw [e, szAdd_eq hn]; omega

/-- After `reserve(n)` there is room for `n` more elements, also in the
bookkeeping of a wrapped sum. -/
theorem reserve_then_add {h h2 : Heap TYPE} {c c2 : Array TYPE} {n : Nat}
    (hb : Bounded c) (hn : n < SIZE_MOD) (hs : c.reserve h n = Except.ok (h2, c2)) :
    szAdd c2.dim n ≤ c2.allocdim ∧ c2.allocdim < SIZE_MOD := by
  obtain ⟨hd, hcase⟩ := reserve_fields hb hs
  obtain ⟨hle, hlt⟩ := hb
  rw [hd]
  rcases hcase with ⟨hroom, e⟩ | ⟨-, ⟨h0, hk, e⟩ | ⟨h0, hk, e⟩ | ⟨h0, e⟩⟩
  · rw [e, szAdd_eq (by omega)]; omega
  · have hz : c.dim = 0 := by omega
    rw [e, hz, szAdd_eq (by omega)]
    unfold SMALLARRAYCAP SIZE_MOD at *; omega
  · have hz : c.dim = 0 := by omega
    rw [e, hz, szAdd_eq (by omega)]; omega
  · rw [e]; exact ⟨Nat.le_refl _, szAdd_lt _ _⟩

theorem push_bounded {h h2 : Heap TYPE} {c c2 : Array TYPE} {a : Cell TYPE}
    (hb : Bounded c) (hs : c.push h a = Except.ok (h2, c2)) : Bounded c2 := by
  unfold Array.push at hs
  split at hs
  · cases hs
  · rename_i r1 hr1
    split at hs
    · cases hs
    · rename_i r2 hr2
      injection hs with hs
      injection hs with e1 e2
      subst e2
      obtain ⟨f1, f2, -⟩ := store_fields (hr2 : store _ _ _ _ _ = _)
      have := reserve_then_add hb (by unfold SIZE_MOD; omega : 1 < SIZE_MOD) hr1
      exact ⟨by show szAdd r2.2.dim 1 ≤ r2.2.allocdim; rw [f1, f2]; exact this.1,
        by show r2.2.allocdim < SIZE_MOD; rw [f2]; exact this.2⟩

/-- C1 (as amended): for a well-formed container holding `xs` whose capacity is
`SMALLARRAYCAP` only when the storage is the inline buffer, an index
`i ≤ dim` and an element `e`, with the byte size of `dim + 1` slots
representable in `size_t`: `insert(i, e)` returns, the length becomes
`dim + 1`, index `i` reads `e`, every element of `xs` at an index below `i`
stays where it was, every element at an index `j ≥ i` is read at `j + 1`, and
the contents are `xs.take i ++ [e] ++ xs.drop i`. -/
theorem insert_element_contents (h : Heap TYPE) (c : Array TYPE) (xs : List (Cell TYPE))
    (i : Nat) (e : Cell TYPE) (hwf : WellFormed h c) (hdisc : Discriminated c)
    (he : c.elems h = Except.ok xs) (hi : i ≤ c.dim)
    (hfit : (c.dim + 1) * PTR_SIZE < SIZE_MOD) :
    ∃ h2 c2, c.insert h i e = Except.ok (h2, c2) ∧ c2.dim = c.dim + 1 ∧
      c2.opIndex h2 i = Except.ok e ∧
      (∀ j v, xs[j]? = some v → j < i → c2.opIndex h2 j = Except.ok v) ∧
      (∀ j v, xs[j]? = some v → i ≤ j → c2.opIndex h2 (j + 1) = Except.ok v) ∧
      c2.elems h2 = Except.ok (xs.take i ++ [e] ++ xs.drop i) := by
  obtain ⟨h2, c2, hins, hd2, he2, -, -, -, -⟩ := insert_core i e hwf hdisc he hi hfit
  obtain ⟨-, -, hxl⟩ := region_of_elems he
  have key : ∀ j v, (xs.take i ++ [e] ++ xs.drop i)[j]? = some v →
      c2.opIndex h2 j = Except.ok v := by
    intro j v hj
    obtain ⟨rest, hr, -⟩ := region_of_elems he2
    refine peek_of_region hr j v ?_
    have hlt : j < (xs.take i ++ [e] ++ xs.drop i).length := by
      rcases Nat.lt_or_ge j (xs.take i ++ [e] ++ xs.drop i).length with hlt | hge
      · exact hlt
      · rw [List.getElem?_eq_none hge] at hj; cases hj
    rw [List.getElem?_append_left hlt]; exact hj
  have hti : (xs.take i).length = i := by simp; omega
  refine ⟨h2, c2, hins, hd2, ?_, ?_, ?_, he2⟩
  · apply key
    rw [List.append_assoc, List.getElem?_append_right (by omega)]
    simp [hti]
  · intro j v hj hlt
    apply key
    rw [List.append_assoc, List.getElem?_append_left (by omega), List.getElem?_take_of_lt hlt]
    exact hj
  · intro j v hj hle
    apply key
    rw [List.getElem?_append_right (by simp; omega)]
    simp only [List.length_append, hti, List.length_singleton, List.getElem?_drop]
    rw [← hj]; congr 1; omega

/-- The scenario of the spec: `insert(1, C)` into `[A, B]` gives `[A, C, B]`. -/
theorem insert_element_contents_witness :
    WellFormed heapAB arrAB ∧ Discriminated arrAB ∧
      arrAB.elems heapAB = Except.ok [Cell.ptr 1, Cell.ptr 2] ∧
      ∃ h2 c2, arrAB.insert heapAB 1 (Cell.ptr 3) = Except.ok (h2, c2) ∧ c2.dim = arrAB.dim + 1 ∧
        c2.opIndex h2 1 = Except.ok (Cell.ptr 3) ∧
        (∀ j v, [Cell.ptr 1, Cell.ptr 2][j]? = some v → j < 1 → c2.opIndex h2 j = Except.ok v) ∧
        (∀ j v, [Cell.ptr 1, Cell.ptr 2][j]? = some v → 1 ≤ j →
          c2.opIndex h2 (j + 1) = Except.ok v) ∧
        c2.elems h2 = Except.ok ([Cell.ptr 1, Cell.ptr 2].take 1 ++ [Cell.ptr 3] ++
          [Cell.ptr 1, Cell.ptr 2].drop 1) :=
  ⟨by decide, by decide, by decide,
    insert_element_contents heapAB arrAB [Cell.ptr 1, Cell.ptr 2] 1 (Cell.ptr 3)
      (by decide) (by decide) (by decide) (by decide) (by decide)⟩

/-- C1 as stated fails: the container `[A]` stored in a live heap block of one
slot is well formed (`dim ≤ allocdim`, a live heap block of `allocdim` slots),
yet `insert(0, B)` takes the branch `allocdim == SMALLARRAYCAP` of `reserve`,
which copies from the inline buffer: index 1 then reads the never written
inline slot and not `A`. -/
theorem insert_element_heap_capacity_one :
    WellFormed heapOne arrOne ∧ arrOne.elems heapOne = Except.ok [Cell.ptr 1] ∧ 0 ≤ arrOne.dim ∧
      arrOne.insert heapOne 0 (Cell.ptr 2) = Except.ok
        ([⟨true, [Cell.ptr 1]⟩, ⟨true, [Cell.ptr 2, Cell.junk]⟩],
          { dim := 2, data := DataPtr.heap 1, allocdim := 2, smallarray := [Cell.junk] }) ∧
      ¬ ∃ h2 c2, arrOne.insert heapOne 0 (Cell.ptr 2) = Except.ok (h2, c2) ∧
        c2.elems h2 = Except.ok ([Cell.ptr 1].take 0 ++ [Cell.ptr 2] ++ [Cell.ptr 1].drop 0) := by
  refine ⟨by decide, by decide, by decide, by decide, ?_⟩
  rintro ⟨h2, c2, hins, he⟩
  have hv : arrOne.insert heapOne 0 (Cell.ptr 2) = Except.ok
      ([⟨true, [Cell.ptr 1]⟩, ⟨true, [Cell.ptr 2, Cell.junk]⟩],
        { dim := 2, data := DataPtr.heap 1, allocdim := 2, smallarray := [Cell.junk] }) := by
    decide
  rw [hv] at hins
  injection hins with hins
  injection hins with e1 e2
  subst e1 e2
  revert he
  decide

/-- C2: for a well-formed container holding `xs` and an index `i < dim`,
`remove(i)` returns, the length becomes `dim - 1`, the contents are `xs` with
index `i` deleted (the elements below `i` stay, each index `j ≥ i` reads
`xs[j+1]`), and for `i = dim - 1` nothing is moved: the heap and the storage
are untouched and only `dim` changes. -/
theorem remove_contents (h : Heap TYPE) (c : Array TYPE) (xs : List (Cell TYPE)) (i : Nat)
    (hwf : WellFormed h c) (he : c.elems h = Except.ok xs) (hi : i < c.dim) :
    ∃ h2 c2, c.remove h i = Except.ok (h2, c2) ∧ c2.dim = c.dim - 1 ∧
      c2.elems h2 = Except.ok (xs.eraseIdx i) ∧
      (∀ j v, xs[j]? = some v → j < i → c2.opIndex h2 j = Except.ok v) ∧
      (∀ j v, xs[j + 1]? = some v → i ≤ j → c2.opIndex h2 j = Except.ok v) ∧
      (i + 1 = c.dim → h2 = h ∧ c2 = { c with dim := c.dim - 1 }) := by
  obtain ⟨h2, c2, hrm, hd2, he2, -, -, -, -, hlast⟩ := remove_core i hwf he hi
  obtain ⟨-, -, hxl⟩ := region_of_elems he
  have hti : (xs.take i).length = i := by simp; omega
  refine ⟨h2, c2, hrm, hd2, ?_, ?_, ?_, hlast⟩
  · rw [List.eraseIdx_eq_take_drop_succ]; exact he2
  · intro j v hj hlt
    apply opIndex_of_mem he2
    rw [List.getElem?_append_left (by omega), List.getElem?_take_of_lt hlt]
    exact hj
  · intro j v hj hle
    apply opIndex_of_mem he2
    have e : i + 1 + (j - (xs.take i).length) = j + 1 := by omega
    rw [List.getElem?_append_right (by omega), List.getElem?_drop, e]
    exact hj

/-- The scenario of the spec: `remove(0)` on `[A, C, B]` gives `[C, B]`. -/
theorem remove_contents_witness :
    WellFormed heapACB arrACB ∧
      arrACB.elems heapACB = Except.ok [Cell.ptr 1, Cell.ptr 3, Cell.ptr 2] ∧ 0 < arrACB.dim ∧
      ∃ h2 c2, arrACB.remove heapACB 0 = Except.ok (h2, c2) ∧ c2.dim = arrACB.dim - 1 ∧
        c2.elems h2 = Except.ok ([Cell.ptr 1, Cell.ptr 3, Cell.ptr 2].eraseIdx 0) ∧
        (∀ j v, [Cell.ptr 1, Cell.ptr 3, Cell.ptr 2][j]? = some v → j < 0 →
          c2.opIndex h2 j = Except.ok v) ∧
        (∀ j v, [Cell.ptr 1, Cell.ptr 3, Cell.ptr 2][j + 1]? = some v → 0 ≤ j →
          c2.opIndex h2 j = Except.ok v) ∧
        (0 + 1 = arrACB.dim → h2 = heapACB ∧ c2 = { arrACB with dim := arrACB.dim - 1 }) :=
  ⟨by decide, by decide, by decide,
    remove_contents heapACB arrACB [Cell.ptr 1, Cell.ptr 3, Cell.ptr 2] 0
      (by decide) (by decide) (by decide)⟩

/-- C3: starting from a newly constructed container (in any heap) and pushing
the elements of `xs` in order (the byte size of `xs.length` slots being
representable in `size_t`): after the push of `xs[k]` the length is `k + 1`
and `tos()` returns `xs[k]`; after the last push the length is `xs.length`, the
contents are `xs`, and every index `j` reads `xs[j]`. -/
theorem push_sequence (h : Heap TYPE) (xs : List (Cell TYPE))
    (hfit : xs.length * PTR_SIZE < SIZE_MOD) :
    (∀ k v, xs[k]? = some v →
      ∃ h2 c2, pushAll h Array.ctor (xs.take (k + 1)) = Except.ok (h2, c2) ∧
        c2.dim = k + 1 ∧ c2.tos h2 = Except.ok v) ∧
    ∃ h2 c2, pushAll h Array.ctor xs = Except.ok (h2, c2) ∧ c2.dim = xs.length ∧
      c2.elems h2 = Except.ok xs ∧ ∀ j v, xs[j]? = some v → c2.opIndex h2 j = Except.ok v := by
  have hdisc : Discriminated (Array.ctor : Array TYPE) := fun _ => by simp [Array.ctor, SMALLARRAYCAP]
  have he : (Array.ctor : Array TYPE).elems h = Except.ok [] := by
    simp [Array.elems, load, region, Array.ctor, SMALLARRAYCAP]
  have hd0 : (Array.ctor : Array TYPE).dim = 0 := rfl
  constructor
  · intro k v hk
    have hlt : k < xs.length := by
      rcases Nat.lt_or_ge k xs.length with hlt | hge
      · exact hlt
      · rw [List.getElem?_eq_none hge] at hk; cases hk
    have hlen : (xs.take (k + 1)).length = k + 1 := by simp; omega
    obtain ⟨h2, c2, hall, hd2, he2, hwf2, -⟩ :=
      pushAll_core (xs.take (k + 1)) (wf_ctor h) hdisc he
        (by rw [hd0, hlen]; unfold PTR_SIZE SIZE_MOD at *; omega)
    refine ⟨h2, c2, hall, by rw [hd2, hd0, hlen]; omega, ?_⟩
    rw [tos_of_elems hwf2 he2]
    simp only [List.nil_append, List.getLast?_eq_getElem?, hlen, Nat.add_sub_cancel]
    rw [List.getElem?_take_of_lt (by omega), hk]
    rfl
  · obtain ⟨h2, c2, hall, hd2, he2, -, -⟩ :=
      pushAll_core xs (wf_ctor h) hdisc he (by rw [hd0]; simpa using hfit)
    simp only [List.nil_append] at he2
    exact ⟨h2, c2, hall, by rw [hd2, hd0]; omega, he2, fun j v hj => opIndex_of_mem he2 j v hj⟩

/-- The scenario of the spec: `push(A)` then `push(B)` on an empty container. -/
theorem push_sequence_witness :
    [Cell.ptr 1, Cell.ptr 2].length * PTR_SIZE < SIZE_MOD ∧
    (∀ k v, [Cell.ptr 1, Cell.ptr 2][k]? = some v →
      ∃ h2 c2, pushAll ([] : Heap Nat) Array.ctor ([Cell.ptr 1, Cell.ptr 2].take (k + 1)) =
          Except.ok (h2, c2) ∧
        c2.dim = k + 1 ∧ c2.tos h2 = Except.ok v) ∧
    ∃ h2 c2, pushAll ([] : Heap Nat) Array.ctor [Cell.ptr 1, Cell.ptr 2] = Except.ok (h2, c2) ∧
      c2.dim = [Cell.ptr 1, Cell.ptr 2].length ∧
      c2.elems h2 = Except.ok [Cell.ptr 1, Cell.ptr 2] ∧
      ∀ j v, [Cell.ptr 1, Cell.ptr 2][j]? = some v → c2.opIndex h2 j = Except.ok v :=
  ⟨by decide, push_sequence ([] : Heap Nat) [Cell.ptr 1, Cell.ptr 2] (by decide)⟩

/-- C4 (as amended): for a well-formed container holding `xs` whose capacity
is `SMALLARRAYCAP` only when the storage is the inline buffer, another
well-formed container `a` holding `ys` that shares no heap block with it, and
an index `i ≤ dim`, with the byte size of `dim + a.dim` slots representable in
`size_t`: the bulk `insert(i, a)` returns, the length becomes `dim + a.dim`, the
contents are `xs.take i ++ ys ++ xs.drop i`, and `a` still holds `ys` and is
well formed. -/
theorem insert_array_contents (h : Heap TYPE) (c a : Array TYPE) (xs ys : List (Cell TYPE))
    (i : Nat) (hwf : WellFormed h c) (hdisc : Discriminated c)
    (he : c.elems h = Except.ok xs) (hwa : WellFormed h a) (hea : a.elems h = Except.ok ys)
    (hsep : Separate c a) (hi : i ≤ c.dim)
    (hfit : (c.dim + a.dim) * PTR_SIZE < SIZE_MOD) :
    ∃ h2 c2, c.insertArray h i (some a) = Except.ok (h2, c2) ∧ c2.dim = c.dim + a.dim ∧
      c2.elems h2 = Except.ok (xs.take i ++ ys ++ xs.drop i) ∧
      a.elems h2 = Except.ok ys ∧ WellFormed h2 a := by
  obtain ⟨h2, c2, hins, hd2, he2, hea2, hwa2, -, -, -, -⟩ :=
    insertArray_core i hwf hdisc he hwa hea hsep hi hfit
  exact ⟨h2, c2, hins, hd2, he2, hea2, hwa2⟩

/-- The scenario of the spec: the bulk `insert(1, [P, Q])` into `[A, B]` gives
`[A, P, Q, B]`. -/
theorem insert_array_contents_witness :
    WellFormed heapABPQ arrAB ∧ Discriminated arrAB ∧
      arrAB.elems heapABPQ = Except.ok [Cell.ptr 1, Cell.ptr 2] ∧
      WellFormed heapABPQ arrPQ ∧ arrPQ.elems heapABPQ = Except.ok [Cell.ptr 16, Cell.ptr 17] ∧
      Separate arrAB arrPQ ∧
      (∃ h2 c2, arrAB.insertArray heapABPQ 1 (some arrPQ) = Except.ok (h2, c2) ∧
        c2.dim = arrAB.dim + arrPQ.dim ∧
        c2.elems h2 = Except.ok ([Cell.ptr 1, Cell.ptr 2].take 1 ++ [Cell.ptr 16, Cell.ptr 17] ++
          [Cell.ptr 1, Cell.ptr 2].drop 1) ∧
        arrPQ.elems h2 = Except.ok [Cell.ptr 16, Cell.ptr 17] ∧ WellFormed h2 arrPQ) :=
  ⟨by decide, by decide, by decide, by decide, by decide, by decide,
    insert_array_contents heapABPQ arrAB arrPQ [Cell.ptr 1, Cell.ptr 2]
      [Cell.ptr 16, Cell.ptr 17] 1 (by decide) (by decide) (by decide) (by decide) (by decide)
      (by decide) (by decide) (by decide)⟩

/-- C4 as stated fails: into the well-formed container `[A]` stored in a live
heap block of one slot, the bulk `insert(0, [P])` gives `[P, junk]`: `reserve`
copied the old content from the inline buffer, and `A` is lost. -/
theorem insert_array_heap_capacity_one :
    WellFormed heapOne arrOne ∧ arrOne.elems heapOne = Except.ok [Cell.ptr 1] ∧
      WellFormed heapOne arrP ∧ arrP.elems heapOne = Except.ok [Cell.ptr 16] ∧
      Separate arrOne arrP ∧ 0 ≤ arrOne.dim ∧
      arrOne.insertArray heapOne 0 (some arrP) = Except.ok
        ([⟨true, [Cell.ptr 1]⟩, ⟨true, [Cell.ptr 16, Cell.junk]⟩],
          { dim := 2, data := DataPtr.heap 1, allocdim := 2, smallarray := [Cell.junk] }) ∧
      Array.elems [⟨true, [Cell.ptr 1]⟩, ⟨true, [Cell.ptr 16, Cell.junk]⟩]
          ({ dim := 2, data := DataPtr.heap 1, allocdim := 2, smallarray := [Cell.junk] } :
            Array Nat) ≠
        Except.ok ([Cell.ptr 1].take 0 ++ [Cell.ptr 16] ++ [Cell.ptr 1].drop 0) := by
  decide

/-- C5: for a well-formed container holding a non-empty `xs`, `pop()` returns
the last element of `xs`; the container it leaves differs from the old one in
`dim` only, which is one less (so `allocdim`, `data` and the inline buffer are
the old ones, and no memory is written), and it holds `xs` without its last
element. -/
theorem pop_last (h : Heap TYPE) (c : Array TYPE) (xs : List (Cell TYPE))
    (hwf : WellFormed h c) (he : c.elems h = Except.ok xs) (hne : xs ≠ []) :
    ∃ v c2, c.pop h = Except.ok (v, c2) ∧ xs.getLast? = some v ∧
      c2 = { c with dim := c.dim - 1 } ∧ c2.dim = c.dim - 1 ∧
      c2.allocdim = c.allocdim ∧ c2.data = c.data ∧
      c2.elems h = Except.ok xs.dropLast ∧
      ∀ j w, j < c.dim - 1 → xs[j]? = some w → c2.opIndex h j = Except.ok w := by
  obtain ⟨hdim, -, -, hbytes⟩ := hwf
  obtain ⟨free, hr, hxl⟩ := region_of_elems he
  have hpos : 0 < xs.length := List.length_pos.mpr hne
  have hs : szSub c.dim 1 = c.dim - 1 :=
    szSub_eq (by omega) (by unfold PTR_SIZE SIZE_MOD at *; omega)
  cases hlast : xs.getLast? with
  | none => exact absurd (List.getLast?_eq_none_iff.mp hlast) hne
  | some v =>
    have hidx : xs[c.dim - 1]? = some v := by
      rw [← hlast, List.getLast?_eq_getElem?, hxl]
    have hreg2 := (region_setDim h c c.data (c.dim - 1)).trans hr
    have hx : xs = xs.dropLast ++ [v] := (List.dropLast_append_getLast? v hlast).symm
    have he2 : Array.elems h ({ c with dim := c.dim - 1 } : Array TYPE) =
        Except.ok xs.dropLast := by
      rw [hx, List.append_assoc] at hreg2
      refine elems_of_region_append hreg2 ?_
      simp; omega
    refine ⟨v, { c with dim := c.dim - 1 }, ?_, rfl, rfl, rfl, rfl, rfl, he2, ?_⟩
    · unfold Array.pop
      simp only [hs]
      have hpk : peek h ({ c with dim := c.dim - 1 } : Array TYPE) c.data (c.dim - 1) =
          Except.ok v := by
        refine peek_of_region hreg2 _ _ ?_
        rw [List.getElem?_append_left (by omega)]
        exact hidx
      rw [hpk]
    · intro j w hj hw
      refine opIndex_of_mem he2 j w ?_
      rw [List.getElem?_dropLast, if_pos (by omega)]
      exact hw

/-- The scenario of the spec: `pop()` on `[C, B]` returns `B` and leaves `[C]`. -/
theorem pop_last_witness :
    WellFormed heapCB arrCB ∧ arrCB.elems heapCB = Except.ok [Cell.ptr 3, Cell.ptr 2] ∧
      [Cell.ptr 3, Cell.ptr 2] ≠ ([] : List (Cell Nat)) ∧
      ∃ v c2, arrCB.pop heapCB = Except.ok (v, c2) ∧
        [Cell.ptr 3, Cell.ptr 2].getLast? = some v ∧
        c2 = { arrCB with dim := arrCB.dim - 1 } ∧ c2.dim = arrCB.dim - 1 ∧
        c2.allocdim = arrCB.allocdim ∧ c2.data = arrCB.data ∧
        c2.elems heapCB = Except.ok [Cell.ptr 3, Cell.ptr 2].dropLast ∧
        ∀ j w, j < arrCB.dim - 1 → [Cell.ptr 3, Cell.ptr 2][j]? = some w →
          c2.opIndex heapCB j = Except.ok w :=
  ⟨by decide, by decide, by decide,
    pop_last heapCB arrCB [Cell.ptr 3, Cell.ptr 2] (by decide) (by decide) (by decide)⟩

/-- C6 (as amended): for a well-formed container holding `xs` whose capacity is
`SMALLARRAYCAP` only when the storage is the inline buffer, an index
`i ≤ dim` and an element `e`, with the byte size of `dim + 1` slots
representable in `size_t`: `insert(i, e)` followed by `remove(i)` both return
and leave a container of the old length that holds `xs` again, every index
reading what it read before. -/
theorem insert_remove_inverse (h : Heap TYPE) (c : Array TYPE) (xs : List (Cell TYPE))
    (i : Nat) (e : Cell TYPE) (hwf : WellFormed h c) (hdisc : Discriminated c)
    (he : c.elems h = Except.ok xs) (hi : i ≤ c.dim)
    (hfit : (c.dim + 1) * PTR_SIZE < SIZE_MOD) :
    ∃ h2 c2 h3 c3, c.insert h i e = Except.ok (h2, c2) ∧ c2.remove h2 i = Except.ok (h3, c3) ∧
      c3.dim = c.dim ∧ c3.elems h3 = Except.ok xs ∧
      ∀ j v, xs[j]? = some v → c3.opIndex h3 j = Except.ok v := by
  obtain ⟨h2, c2, hins, hd2, he2, hwf2, -, -, -⟩ := insert_core i e hwf hdisc he hi hfit
  obtain ⟨h3, c3, hrm, hd3, he3, -, -, -, -, -⟩ := remove_core i hwf2 he2 (by omega)
  obtain ⟨-, -, hxl⟩ := region_of_elems he
  have hti : (xs.take i).length = i := by simp; omega
  have hback : (xs.take i ++ [e] ++ xs.drop i).take i ++
      (xs.take i ++ [e] ++ xs.drop i).drop (i + 1) = xs := by
    have e1 : (xs.take i ++ [e] ++ xs.drop i).take i = xs.take i := by
      rw [List.append_assoc]; exact List.take_left' hti
    have e2 : (xs.take i ++ [e] ++ xs.drop i).drop (i + 1) = xs.drop i :=
      List.drop_left' (by simp; omega)
    rw [e1, e2, List.take_append_drop]
  rw [hback] at he3
  exact ⟨h2, c2, h3, c3, hins, hrm, by rw [hd3, hd2]; omega, he3,
    fun j v hj => opIndex_of_mem he3 j v hj⟩

/-- The round trip on `[A, B]`: `insert(1, C)` and then `remove(1)`. -/
theorem insert_remove_inverse_witness :
    WellFormed heapAB arrAB ∧ Discriminated arrAB ∧
      arrAB.elems heapAB = Except.ok [Cell.ptr 1, Cell.ptr 2] ∧
      ∃ h2 c2 h3 c3, arrAB.insert heapAB 1 (Cell.ptr 3) = Except.ok (h2, c2) ∧
        c2.remove h2 1 = Except.ok (h3, c3) ∧
        c3.dim = arrAB.dim ∧ c3.elems h3 = Except.ok [Cell.ptr 1, Cell.ptr 2] ∧
        ∀ j v, [Cell.ptr 1, Cell.ptr 2][j]? = some v → c3.opIndex h3 j = Except.ok v :=
  ⟨by decide, by decide, by decide,
    insert_remove_inverse heapAB arrAB [Cell.ptr 1, Cell.ptr 2] 1 (Cell.ptr 3)
      (by decide) (by decide) (by decide) (by decide) (by decide)⟩

/-- C6 as stated fails: on the well-formed container `[A]` stored in a live heap
block of one slot, `insert(0, B)` followed by `remove(0)` leaves a container of
length 1 whose index 0 reads the never written inline slot, not `A`. -/
theorem insert_remove_heap_capacity_one :
    WellFormed heapOne arrOne ∧ arrOne.elems heapOne = Except.ok [Cell.ptr 1] ∧ 0 ≤ arrOne.dim ∧
      arrOne.insert heapOne 0 (Cell.ptr 2) = Except.ok
        ([⟨true, [Cell.ptr 1]⟩, ⟨true, [Cell.ptr 2, Cell.junk]⟩],
          { dim := 2, data := DataPtr.heap 1, allocdim := 2, smallarray := [Cell.junk] }) ∧
      Array.remove [⟨true, [Cell.ptr 1]⟩, ⟨true, [Cell.ptr 2, Cell.junk]⟩]
          ({ dim := 2, data := DataPtr.heap 1, allocdim := 2, smallarray := [Cell.junk] } :
            Array Nat) 0 = Except.ok
        ([⟨true, [Cell.ptr 1]⟩, ⟨true, [Cell.junk, Cell.junk]⟩],
          { dim := 1, data := DataPtr.heap 1, allocdim := 2, smallarray := [Cell.junk] }) ∧
      Array.elems [⟨true, [Cell.ptr 1]⟩, ⟨true, [Cell.junk, Cell.junk]⟩]
          ({ dim := 1, data := DataPtr.heap 1, allocdim := 2, smallarray := [Cell.junk] } :
            Array Nat) = Except.ok [Cell.junk] ∧
      Except.ok [Cell.junk] ≠ arrOne.elems heapOne := by
  decide

/-- C8 (as amended): for a well-formed container holding `xs` whose capacity is
`SMALLARRAYCAP` only when the storage is the inline buffer, and an element
`e`, with the byte size of `dim + 1` slots representable in `size_t`:
`shift(e)` returns, the length becomes `dim + 1`, index 0 reads `e`, every
index `j + 1` reads `xs[j]`, and the contents are `e :: xs`. -/
theorem shift_contents (h : Heap TYPE) (c : Array TYPE) (xs : List (Cell TYPE))
    (e : Cell TYPE) (hwf : WellFormed h c) (hdisc : Discriminated c)
    (he : c.elems h = Except.ok xs) (hfit : (c.dim + 1) * PTR_SIZE < SIZE_MOD) :
    ∃ h2 c2, c.shift h e = Except.ok (h2, c2) ∧ c2.dim = c.dim + 1 ∧
      c2.opIndex h2 0 = Except.ok e ∧
      (∀ j v, xs[j]? = some v → c2.opIndex h2 (j + 1) = Except.ok v) ∧
      c2.elems h2 = Except.ok (e :: xs) := by
  obtain ⟨h2, c2, hsh, hd2, he2, -, -, -, -⟩ := shift_core e hwf hdisc he hfit
  refine ⟨h2, c2, hsh, hd2, opIndex_of_mem he2 0 e (by simp), fun j v hj => ?_, he2⟩
  exact opIndex_of_mem he2 (j + 1) v (by simpa using hj)

/-- The scenario of the spec: `shift(X)` on `[A, B]` gives `[X, A, B]`. -/
theorem shift_contents_witness :
    WellFormed heapAB arrAB ∧ Discriminated arrAB ∧
      arrAB.elems heapAB = Except.ok [Cell.ptr 1, Cell.ptr 2] ∧
      arrAB.dim = 2 ∧
      ∃ h2 c2, arrAB.shift heapAB (Cell.ptr 24) = Except.ok (h2, c2) ∧ c2.dim = arrAB.dim + 1 ∧
        c2.opIndex h2 0 = Except.ok (Cell.ptr 24) ∧
        (∀ j v, [Cell.ptr 1, Cell.ptr 2][j]? = some v → c2.opIndex h2 (j + 1) = Except.ok v) ∧
        c2.elems h2 = Except.ok [Cell.ptr 24, Cell.ptr 1, Cell.ptr 2] :=
  ⟨by decide, by decide, by decide, by decide,
    shift_contents heapAB arrAB [Cell.ptr 1, Cell.ptr 2] (Cell.ptr 24)
      (by decide) (by decide) (by decide) (by decide)⟩

/-- C8 as stated fails: on the well-formed container `[A]` stored in a live heap
block of one slot, `shift(X)` gives `[X, junk]`, not `[X, A]`. -/
theorem shift_heap_capacity_one :
    WellFormed heapOne arrOne ∧ arrOne.elems heapOne = Except.ok [Cell.ptr 1] ∧
      arrOne.shift heapOne (Cell.ptr 24) = Except.ok
        ([⟨true, [Cell.ptr 1]⟩, ⟨true, [Cell.ptr 24, Cell.junk]⟩],
          { dim := 2, data := DataPtr.heap 1, allocdim := 2, smallarray := [Cell.junk] }) ∧
      Array.elems [⟨true, [Cell.ptr 1]⟩, ⟨true, [Cell.ptr 24, Cell.junk]⟩]
          ({ dim := 2, data := DataPtr.heap 1, allocdim := 2, smallarray := [Cell.junk] } :
            Array Nat) ≠ Except.ok [Cell.ptr 24, Cell.ptr 1] := by
  decide

/-- C9: for a well-formed container holding `xs`, `tos()` returns the element
at index `dim - 1` (the last of `xs`) when `dim > 0` and the null pointer when
`dim = 0`; it is a read: it returns no new state. -/
theorem tos_value (h : Heap TYPE) (c : Array TYPE) (xs : List (Cell TYPE))
    (hwf : WellFormed h c) (he : c.elems h = Except.ok xs) :
    (0 < c.dim → ∃ v, xs[c.dim - 1]? = some v ∧ xs.getLast? = some v ∧
      c.tos h = Except.ok v ∧ c.opIndex h (c.dim - 1) = Except.ok v) ∧
    (c.dim = 0 → c.tos h = Except.ok Cell.null) := by
  obtain ⟨-, -, hxl⟩ := region_of_elems he
  have ht := tos_of_elems hwf he
  constructor
  · intro hpos
    cases hg : xs[c.dim - 1]? with
    | none =>
      rw [List.getElem?_eq_none_iff] at hg
      omega
    | some v =>
      have hl : xs.getLast? = some v := by rw [List.getLast?_eq_getElem?, hxl, hg]
      refine ⟨v, rfl, hl, ?_, opIndex_of_mem he _ v hg⟩
      rw [ht, hl]; rfl
  · intro hz
    have : xs = [] := List.length_eq_zero.mp (by omega)
    rw [ht, this]; rfl

/-- On `[C, B]`, `tos()` returns `B`. -/
theorem tos_value_witness :
    WellFormed heapCB arrCB ∧ arrCB.elems heapCB = Except.ok [Cell.ptr 3, Cell.ptr 2] ∧
      (0 < arrCB.dim → ∃ v, [Cell.ptr 3, Cell.ptr 2][arrCB.dim - 1]? = some v ∧
        [Cell.ptr 3, Cell.ptr 2].getLast? = some v ∧
        arrCB.tos heapCB = Except.ok v ∧ arrCB.opIndex heapCB (arrCB.dim - 1) = Except.ok v) ∧
      (arrCB.dim = 0 → arrCB.tos heapCB = Except.ok Cell.null) :=
  ⟨by decide, by decide,
    tos_value heapCB arrCB [Cell.ptr 3, Cell.ptr 2] (by decide) (by decide)⟩

/-- C7: for a well-formed container holding `xs`, `copy()` returns a new
container of the same length reading the same element at every index; its
storage is its own inline buffer when `dim ≤ SMALLARRAYCAP` and otherwise a
heap block that did not exist before, so the two containers share no block;
the original still holds `xs` and is well formed (its `dim`, `allocdim` and
`data` are not written).  Afterwards a write to a slot of either container,
and a `setDim` on either container, leave the contents of the other one
unchanged. -/
theorem copy_independent (h : Heap TYPE) (c : Array TYPE) (xs : List (Cell TYPE))
    (hwf : WellFormed h c) (he : c.elems h = Except.ok xs) :
    ∃ h2 a, c.copy h = Except.ok (h2, a) ∧ a.dim = c.dim ∧ a.elems h2 = Except.ok xs ∧
      (∀ j v, xs[j]? = some v → a.opIndex h2 j = Except.ok v ∧ c.opIndex h2 j = Except.ok v) ∧
      (c.dim ≤ SMALLARRAYCAP → a.data = DataPtr.small) ∧
      (SMALLARRAYCAP < c.dim → ∃ k, a.data = DataPtr.heap k ∧ h.length ≤ k) ∧
      Separate a c ∧ Separate c a ∧
      c.elems h2 = Except.ok xs ∧ WellFormed h2 c ∧
      (∀ j v, j < c.dim → ∃ h3 a3, a.opIndexAssign h2 j v = Except.ok (h3, a3) ∧
        a3.opIndex h3 j = Except.ok v ∧ c.elems h3 = Except.ok xs) ∧
      (∀ j v, j < c.dim → ∃ h3 c3, c.opIndexAssign h2 j v = Except.ok (h3, c3) ∧
        c3.opIndex h3 j = Except.ok v ∧ a.elems h3 = Except.ok xs) ∧
      (∀ n, n * PTR_SIZE < SIZE_MOD → ∃ h3 a3, a.setDim h2 n = Except.ok (h3, a3) ∧
        a3.dim = n ∧ c.elems h3 = Except.ok xs) ∧
      (∀ n, n * PTR_SIZE < SIZE_MOD → ∃ h3 c3, c.setDim h2 n = Except.ok (h3, c3) ∧
        c3.dim = n ∧ a.elems h3 = Except.ok xs) := by
  obtain ⟨h2, a, hcp, hd, hea, hwa, -, hec, hwc, hp, hsmall, hheap, hfr⟩ := copy_core hwf he
  obtain ⟨resta, hra, hal⟩ := region_of_elems hea
  obtain ⟨restc, hrc, hcl⟩ := region_of_elems hec
  obtain ⟨free0, hrc0, -⟩ := region_of_elems he
  have hcin : ∀ b, c.data = DataPtr.heap b → b < h.length :=
    fun b hb => heap_index_of_region hrc0 hb
  have hca : ∀ b, c.data = DataPtr.heap b → DataPtr.heap b ≠ a.data := by
    intro b hb e
    rcases hp with e2 | ⟨k, e2, hk⟩
    · rw [e2] at e; cases e
    · rw [e2] at e; injection e with e; have := hcin b hb; omega
  have hac : ∀ k, a.data = DataPtr.heap k → DataPtr.heap k ≠ c.data :=
    fun k hk e => hca k e.symm (by rw [hk])
  refine ⟨h2, a, hcp, hd, hea,
    fun j v hj => ⟨opIndex_of_mem hea j v hj, opIndex_of_mem hec j v hj⟩, hsmall, hheap,
    fun k hk e => hac k hk e.symm, fun b hb e => hca b hb e.symm, hec, hwc, ?_, ?_, ?_, ?_⟩
  · intro j v hj
    obtain ⟨h3, a3, hst, hrd, -, -, hf3⟩ :=
      opIndexAssign_spec j v hra (by simp; omega)
    exact ⟨h3, a3, hst, hrd, elems_of_region_append (region_frame c hf3 hrc hca) hcl.symm⟩
  · intro j v hj
    obtain ⟨h3, c3, hst, hrd, -, -, hf3⟩ :=
      opIndexAssign_spec j v hrc (by simp; omega)
    exact ⟨h3, c3, hst, hrd, elems_of_region_append (region_frame a hf3 hra hac) hal.symm⟩
  · intro n hn
    obtain ⟨h3, a3, hset, hd3, -, hf3, -, -, -⟩ := setDim_total n hwa hn
    exact ⟨h3, a3, hset, hd3, elems_of_region_append (region_frame c hf3 hrc hca) hcl.symm⟩
  · intro n hn
    obtain ⟨h3, c3, hset, hd3, -, hf3, -, -, -⟩ := setDim_total n hwc hn
    exact ⟨h3, c3, hset, hd3, elems_of_region_append (region_frame a hf3 hra hac) hal.symm⟩

/-- The container `[A, B]` and its copy. -/
theorem copy_independent_witness :
    WellFormed heapAB arrAB ∧ arrAB.elems heapAB = Except.ok [Cell.ptr 1, Cell.ptr 2] ∧
    ∃ h2 a, arrAB.copy heapAB = Except.ok (h2, a) ∧ a.dim = arrAB.dim ∧
      a.elems h2 = Except.ok [Cell.ptr 1, Cell.ptr 2] ∧
      (∀ j v, [Cell.ptr 1, Cell.ptr 2][j]? = some v →
        a.opIndex h2 j = Except.ok v ∧ arrAB.opIndex h2 j = Except.ok v) ∧
      (arrAB.dim ≤ SMALLARRAYCAP → a.data = DataPtr.small) ∧
      (SMALLARRAYCAP < arrAB.dim → ∃ k, a.data = DataPtr.heap k ∧ heapAB.length ≤ k) ∧
      Separate a arrAB ∧ Separate arrAB a ∧
      arrAB.elems h2 = Except.ok [Cell.ptr 1, Cell.ptr 2] ∧ WellFormed h2 arrAB ∧
      (∀ j v, j < arrAB.dim → ∃ h3 a3, a.opIndexAssign h2 j v = Except.ok (h3, a3) ∧
        a3.opIndex h3 j = Except.ok v ∧ arrAB.elems h3 = Except.ok [Cell.ptr 1, Cell.ptr 2]) ∧
      (∀ j v, j < arrAB.dim → ∃ h3 c3, arrAB.opIndexAssign h2 j v = Except.ok (h3, c3) ∧
        c3.opIndex h3 j = Except.ok v ∧ a.elems h3 = Except.ok [Cell.ptr 1, Cell.ptr 2]) ∧
      (∀ n, n * PTR_SIZE < SIZE_MOD → ∃ h3 a3, a.setDim h2 n = Except.ok (h3, a3) ∧
        a3.dim = n ∧ arrAB.elems h3 = Except.ok [Cell.ptr 1, Cell.ptr 2]) ∧
      (∀ n, n * PTR_SIZE < SIZE_MOD → ∃ h3 c3, arrAB.setDim h2 n = Except.ok (h3, c3) ∧
        c3.dim = n ∧ a.elems h3 = Except.ok [Cell.ptr 1, Cell.ptr 2]) :=
  ⟨by decide, by decide,
    copy_independent heapAB arrAB [Cell.ptr 1, Cell.ptr 2] (by decide) (by decide)⟩

/-- C10 at the empty container: `toChars()` on a newly constructed container
computes the size 2 for its block and then writes `'['`, `']'` and the `NUL`;
the third write is outside the block, so the call has no defined result,
where the claim promises the string `[]`. -/
theorem toChars_empty_overflow (f : TYPE → List Char) (h : Heap TYPE) :
    (Array.ctor : Array TYPE).toCharsLen f h = Except.ok ([], 2) ∧
      (Array.ctor : Array TYPE).toChars f h = Except.error Fault.outOfBounds ∧
      renderSpec [] = ['[', ']'] := by
  refine ⟨rfl, ?_, rfl⟩
  simp [Array.toChars, Array.toCharsLen, Array.ctor, toCharsCollect, toCharsEmit, strWrite,
    toCharsFill]

/-- C11: for a container holding `xs` with no uninitialised slot,
`apply(fp, param)` returns; with `es` the non-null elements of `xs` in index
order, either some `es[k]` is the first whose traversal signals stop, the
elements `es[0..k]` were traversed in that order, each once, none after it,
and the result is 1; or no traversal signals stop, every non-null element
was traversed once, in order, and the result is 0.  In both cases the result
is that of the early-exit walk of the spec. -/
theorem apply_traversal {σ : Type} (f : TYPE → σ → Int × σ) (h : Heap TYPE) (c : Array TYPE)
    (xs : List (Cell TYPE)) (s : σ) (he : c.elems h = Except.ok xs)
    (hj : Cell.junk ∉ xs) :
    c.apply f h s = Except.ok (traverseSpec f (nonNull xs) s) ∧
    ((∃ k e, (nonNull xs)[k]? = some e ∧
        (∀ j e2, j < k → (nonNull xs)[j]? = some e2 →
          (f e2 (visitAll f ((nonNull xs).take j) s)).1 = 0) ∧
        (f e (visitAll f ((nonNull xs).take k) s)).1 ≠ 0 ∧
        c.apply f h s = Except.ok (1, visitAll f ((nonNull xs).take (k + 1)) s)) ∨
      ((∀ j e2, (nonNull xs)[j]? = some e2 →
          (f e2 (visitAll f ((nonNull xs).take j) s)).1 = 0) ∧
        c.apply f h s = Except.ok (0, visitAll f (nonNull xs) s))) := by
  obtain ⟨free, hr, hxl⟩ := region_of_elems he
  have hap : c.apply f h s = Except.ok (traverseSpec f (nonNull xs) s) := by
    unfold Array.apply
    rw [← hxl]
    exact applyLoop_eq f h c hr xs 0 s free (by simp) hj
  refine ⟨hap, ?_⟩
  rcases traverseSpec_cases f (nonNull xs) s with ⟨k, e, hk, hb, hat, hres⟩ | ⟨hall, hres⟩
  · exact Or.inl ⟨k, e, hk, hb, hat, by rw [hap, hres]⟩
  · exact Or.inr ⟨hall, by rw [hap, hres]⟩

/-- On `[A, NULL, B, C]` with a traversal that stops at `B`: `A` and `B` are
visited, `C` is not, and the result is 1. -/
theorem apply_traversal_witness :
    arrANBC.elems heapANBC = Except.ok [Cell.ptr 1, Cell.null, Cell.ptr 2, Cell.ptr 3] ∧
    Cell.junk ∉ [Cell.ptr 1, Cell.null, Cell.ptr 2, Cell.ptr 3] ∧
    arrANBC.apply sampleApply heapANBC [] = Except.ok (1, [1, 2]) ∧
    (arrANBC.apply sampleApply heapANBC [] = Except.ok
      (traverseSpec sampleApply (nonNull [Cell.ptr 1, Cell.null, Cell.ptr 2, Cell.ptr 3]) []) ∧
    ((∃ k e, (nonNull [Cell.ptr 1, Cell.null, Cell.ptr 2, Cell.ptr 3])[k]? = some e ∧
        (∀ j e2, j < k → (nonNull [Cell.ptr 1, Cell.null, Cell.ptr 2, Cell.ptr 3])[j]? = some e2 →
          (sampleApply e2 (visitAll sampleApply
            ((nonNull [Cell.ptr 1, Cell.null, Cell.ptr 2, Cell.ptr 3]).take j) [])).1 = 0) ∧
        (sampleApply e (visitAll sampleApply
          ((nonNull [Cell.ptr 1, Cell.null, Cell.ptr 2, Cell.ptr 3]).take k) [])).1 ≠ 0 ∧
        arrANBC.apply sampleApply heapANBC [] = Except.ok (1, visitAll sampleApply
          ((nonNull [Cell.ptr 1, Cell.null, Cell.ptr 2, Cell.ptr 3]).take (k + 1)) [])) ∨
      ((∀ j e2, (nonNull [Cell.ptr 1, Cell.null, Cell.ptr 2, Cell.ptr 3])[j]? = some e2 →
          (sampleApply e2 (visitAll sampleApply
            ((nonNull [Cell.ptr 1, Cell.null, Cell.ptr 2, Cell.ptr 3]).take j) [])).1 = 0) ∧
        arrANBC.apply sampleApply heapANBC [] = Except.ok (0, visitAll sampleApply
          (nonNull [Cell.ptr 1, Cell.null, Cell.ptr 2, Cell.ptr 3]) [])))) :=
  ⟨by decide, by decide, by decide,
    apply_traversal sampleApply heapANBC arrANBC
      [Cell.ptr 1, Cell.null, Cell.ptr 2, Cell.ptr 3] [] (by decide) (by decide)⟩

/-- C13 (as amended): for a well-formed container holding `xs` whose capacity
is `SMALLARRAYCAP` only when the storage is the inline buffer, and `n` with
the byte size of `dim + n` slots representable in `size_t`: `reserve(n)`
returns a well-formed container with `allocdim - dim ≥ n`, the same `dim`,
the same contents and the same element at every index. -/
theorem reserve_contents (h : Heap TYPE) (c : Array TYPE) (xs : List (Cell TYPE)) (n : Nat)
    (hwf : WellFormed h c) (hdisc : Discriminated c) (he : c.elems h = Except.ok xs)
    (hfit : (c.dim + n) * PTR_SIZE < SIZE_MOD) :
    ∃ h2 c2, c.reserve h n = Except.ok (h2, c2) ∧ n ≤ c2.allocdim - c2.dim ∧
      c2.dim = c.dim ∧ c2.elems h2 = Except.ok xs ∧
      (∀ j v, xs[j]? = some v → c2.opIndex h2 j = Except.ok v) ∧ WellFormed h2 c2 := by
  obtain ⟨h2, c2, free, hres, hreg, hd, hcap, hwf2, -, -, -⟩ := reserve_spec n hwf hdisc he hfit
  obtain ⟨-, -, hxl⟩ := region_of_elems he
  have he2 : c2.elems h2 = Except.ok xs := elems_of_region_append hreg (by rw [hd, hxl])
  exact ⟨h2, c2, hres, by omega, hd, he2, fun j v hj => opIndex_of_mem he2 j v hj, hwf2⟩

/-- On `[A, B]` with a full block, `reserve(3)` keeps the elements. -/
theorem reserve_contents_witness :
    WellFormed heapAB arrAB ∧ Discriminated arrAB ∧
      arrAB.elems heapAB = Except.ok [Cell.ptr 1, Cell.ptr 2] ∧
      (arrAB.dim + 3) * PTR_SIZE < SIZE_MOD ∧
      ∃ h2 c2, arrAB.reserve heapAB 3 = Except.ok (h2, c2) ∧ 3 ≤ c2.allocdim - c2.dim ∧
        c2.dim = arrAB.dim ∧ c2.elems h2 = Except.ok [Cell.ptr 1, Cell.ptr 2] ∧
        (∀ j v, [Cell.ptr 1, Cell.ptr 2][j]? = some v → c2.opIndex h2 j = Except.ok v) ∧
        WellFormed h2 c2 :=
  ⟨by decide, by decide, by decide, by decide,
    reserve_contents heapAB arrAB [Cell.ptr 1, Cell.ptr 2] 3
      (by decide) (by decide) (by decide) (by decide)⟩

/-- C13 as stated fails twice.  On the inline container `[C]`,
`reserve(2^61 - 1)` has `dim + n = 2^61` (no overflow of the sum), but the byte
size `2^61 * 8` wraps to 0: the block has no slot and the copy of the old
element goes out of bounds.  On the well-formed `[A]` in a one-slot heap
block, `reserve(1)` returns, but index 0 then reads the inline slot. -/
theorem reserve_contents_counterexamples :
    (WellFormed ([] : Heap Nat) arrC ∧ Discriminated arrC ∧
      arrC.dim + 2305843009213693951 < SIZE_MOD ∧
      arrC.reserve [] 2305843009213693951 = Except.error Fault.outOfBounds) ∧
    (WellFormed heapOne arrOne ∧ arrOne.elems heapOne = Except.ok [Cell.ptr 1] ∧
      arrOne.reserve heapOne 1 = Except.ok
        ([⟨true, [Cell.ptr 1]⟩, ⟨true, [Cell.junk, Cell.junk]⟩],
          { dim := 1, data := DataPtr.heap 1, allocdim := 2, smallarray := [Cell.junk] }) ∧
      Array.opIndex [⟨true, [Cell.ptr 1]⟩, ⟨true, [Cell.junk, Cell.junk]⟩]
        ({ dim := 1, data := DataPtr.heap 1, allocdim := 2, smallarray := [Cell.junk] } :
          Array Nat) 0 = Except.ok Cell.junk) := by
  decide

/-- C18 (as amended): for a container that is well formed or zero-initialised,
and `n` with the byte size of `dim + n` slots representable in `size_t`: if
`allocdim - dim ≥ n` then `reserve(n)` changes nothing; otherwise it returns,
and a container with `allocdim = 0` asked for `n ≤ SMALLARRAYCAP` gets the
inline buffer with capacity `SMALLARRAYCAP`, while in every other case the
capacity becomes exactly `dim + n` and the storage a live heap block of that
many slots. -/
theorem reserve_exact_need (h : Heap TYPE) (c : Array TYPE) (n : Nat)
    (hc : WellFormed h c ∨ Zeroed c) (hfit : (c.dim + n) * PTR_SIZE < SIZE_MOD) :
    (n ≤ c.allocdim - c.dim → c.reserve h n = Except.ok (h, c)) ∧
    (c.allocdim - c.dim < n → ∃ h2 c2, c.reserve h n = Except.ok (h2, c2) ∧
      ((c.allocdim = 0 ∧ n ≤ SMALLARRAYCAP) →
        c2.data = DataPtr.small ∧ c2.allocdim = SMALLARRAYCAP) ∧
      (¬(c.allocdim = 0 ∧ n ≤ SMALLARRAYCAP) → c2.allocdim = c.dim + n ∧
        ∃ k blk, c2.data = DataPtr.heap k ∧ h2[k]? = some blk ∧ blk.live = true ∧
          blk.cells.length = c.dim + n)) := by
  rcases hc with hwf | hz
  · obtain ⟨xs, he⟩ := elems_of_wf hwf
    obtain ⟨h2, c2, free, ys, hres, hreg, -, -, -, -, hwf2, -, -, hnoop, hgrow⟩ :=
      reserve_total n hwf he hfit
    refine ⟨fun hle => ?_, fun hlt => ⟨h2, c2, hres, fun hyes => ?_, fun hno => ?_⟩⟩
    · obtain ⟨e1, e2⟩ := hnoop hle
      rw [hres, e1, e2]
    · exact ⟨((hgrow hlt).1 hyes).1, ((hgrow hlt).1 hyes).2.1⟩
    · obtain ⟨hp, ha, -⟩ := (hgrow hlt).2 hno
      obtain ⟨cells, hr, hl⟩ := region_of_wf hwf2
      rw [hp] at hr
      obtain ⟨blk, hb, hlive, hcells⟩ := block_of_region hr
      exact ⟨ha, h.length, blk, hp, hb, hlive, by rw [hcells, hl, ha]⟩
  · have hd : c.dim = 0 := hz.1
    have ha : c.allocdim = 0 := hz.2.1
    have hn : n * PTR_SIZE < SIZE_MOD := by rw [hd] at hfit; simpa using hfit
    obtain ⟨r0, r1, r2⟩ := reserve_zeroed h c n hz hn
    refine ⟨fun hle => r0 (by omega), fun hlt => ?_⟩
    by_cases hk : n ≤ SMALLARRAYCAP
    · refine ⟨_, _, r1 (by omega) hk, fun _ => ⟨rfl, rfl⟩, fun hno => (hno ⟨ha, hk⟩).elim⟩
    · refine ⟨_, _, r2 (by omega), fun hyes => (hk hyes.2).elim, fun _ => ⟨by simp [hd], ?_⟩⟩
      exact ⟨h.length, ⟨true, List.replicate n Cell.junk⟩, rfl, by simp, rfl, by simp [hd]⟩

/-- The three cases on samples: a zero-initialised container asked for one
slot, and the container `[A, B]` with a full block asked for three. -/
theorem reserve_exact_need_witness :
    (WellFormed heapAB arrAB ∨ Zeroed arrAB) ∧ (arrAB.dim + 3) * PTR_SIZE < SIZE_MOD ∧
    (3 ≤ arrAB.allocdim - arrAB.dim → arrAB.reserve heapAB 3 = Except.ok (heapAB, arrAB)) ∧
    (arrAB.allocdim - arrAB.dim < 3 → ∃ h2 c2, arrAB.reserve heapAB 3 = Except.ok (h2, c2) ∧
      ((arrAB.allocdim = 0 ∧ 3 ≤ SMALLARRAYCAP) →
        c2.data = DataPtr.small ∧ c2.allocdim = SMALLARRAYCAP) ∧
      (¬(arrAB.allocdim = 0 ∧ 3 ≤ SMALLARRAYCAP) → c2.allocdim = arrAB.dim + 3 ∧
        ∃ k blk, c2.data = DataPtr.heap k ∧ h2[k]? = some blk ∧ blk.live = true ∧
          blk.cells.length = arrAB.dim + 3)) :=
  ⟨by decide, by decide, reserve_exact_need heapAB arrAB 3 (by decide) (by decide)⟩

/-- C18 as stated fails for a large `n`: on `[A, B]` with a full block of two
slots, `reserve(2^64 - 1)` computes the capacity `2 + (2^64 - 1)`, which wraps
to 1: the block is shrunk to one slot and `allocdim` is 1, below `dim`. -/
theorem reserve_exact_need_overflow :
    WellFormed heapAB arrAB ∧ arrAB.allocdim - arrAB.dim < 18446744073709551615 ∧
      arrAB.reserve heapAB 18446744073709551615 = Except.ok
        ([⟨false, [Cell.ptr 1, Cell.ptr 2]⟩, ⟨true, [Cell.ptr 1]⟩],
          { dim := 2, data := DataPtr.heap 1, allocdim := 1, smallarray := [Cell.junk] }) ∧
      (1 : Nat) ≠ arrAB.dim + 18446744073709551615 := by
  decide

/-- C12 (as amended): for a well-formed container holding `xs` whose capacity
is `SMALLARRAYCAP` only when the storage is the inline buffer, and `n` with
the byte size of `n` slots representable in `size_t`: `setDim(n)` returns,
the length is `n`, the capacity is at least `n`, every index
`j < min(dim, n)` reads `xs[j]`; for `n ≤ dim` only `dim` changes (same heap,
same `allocdim`, `data` and inline buffer), and for `n > dim` the result is
that of `reserve(n - dim)` with `dim` set to `n`. -/
theorem setDim_contents (h : Heap TYPE) (c : Array TYPE) (xs : List (Cell TYPE)) (n : Nat)
    (hwf : WellFormed h c) (hdisc : Discriminated c) (he : c.elems h = Except.ok xs)
    (hn : n * PTR_SIZE < SIZE_MOD) :
    ∃ h2 c2, c.setDim h n = Except.ok (h2, c2) ∧ c2.dim = n ∧ n ≤ c2.allocdim ∧
      (∀ j v, j < n → xs[j]? = some v → c2.opIndex h2 j = Except.ok v) ∧
      (n ≤ c.dim → h2 = h ∧ c2 = { c with dim := n }) ∧
      (c.dim < n → ∃ h1 c1, c.reserve h (n - c.dim) = Except.ok (h1, c1) ∧
        h2 = h1 ∧ c2 = { c1 with dim := n }) := by
  obtain ⟨free0, hr0, hxl⟩ := region_of_elems he
  have hread : ∀ {h2 : Heap TYPE} {c2 : Array TYPE} {free : List (Cell TYPE)},
      region h2 c2 c2.data = Except.ok (xs ++ free) →
      ∀ j v, xs[j]? = some v → c2.opIndex h2 j = Except.ok v := by
    intro h2 c2 free hreg j v hj
    refine peek_of_region hreg j v ?_
    have hlt : j < xs.length := by
      rcases Nat.lt_or_ge j xs.length with hlt | hge
      · exact hlt
      · rw [List.getElem?_eq_none hge] at hj; cases hj
    rw [List.getElem?_append_left hlt]; exact hj
  unfold Array.setDim
  by_cases hlt : c.dim < n
  · rw [if_pos hlt, szSub_eq (Nat.le_of_lt hlt) (lt_SIZE_MOD_of_bytes hn)]
    obtain ⟨h1, c1, free, hres, hreg, hd, hcap, hwf1, -, -, -⟩ :=
      reserve_spec (n - c.dim) hwf hdisc he (by
        have : c.dim + (n - c.dim) = n := by omega
        rw [this]; exact hn)
    have hreg3 := (region_setDim h1 c1 c1.data n).trans hreg
    refine ⟨h1, { c1 with dim := n }, by rw [hres], rfl, by show n ≤ c1.allocdim; omega,
      fun j v _ hj => hread hreg3 j v hj, fun hle => absurd hlt (by omega),
      fun _ => ⟨h1, c1, hres, rfl, rfl⟩⟩
  · rw [if_neg hlt]
    have hreg3 := (region_setDim h c c.data n).trans hr0
    refine ⟨h, { c with dim := n }, rfl, rfl, by show n ≤ c.allocdim; have := hwf.1; omega,
      fun j v _ hj => hread hreg3 j v hj, fun _ => ⟨rfl, rfl⟩, fun hgt => absurd hgt hlt⟩

/-- Growing `[A, B]` to length 4 and truncating it to length 1. -/
theorem setDim_contents_witness :
    WellFormed heapAB arrAB ∧ Discriminated arrAB ∧
      arrAB.elems heapAB = Except.ok [Cell.ptr 1, Cell.ptr 2] ∧ 4 * PTR_SIZE < SIZE_MOD ∧
      ∃ h2 c2, arrAB.setDim heapAB 4 = Except.ok (h2, c2) ∧ c2.dim = 4 ∧ 4 ≤ c2.allocdim ∧
        (∀ j v, j < 4 → [Cell.ptr 1, Cell.ptr 2][j]? = some v → c2.opIndex h2 j = Except.ok v) ∧
        (4 ≤ arrAB.dim → h2 = heapAB ∧ c2 = { arrAB with dim := 4 }) ∧
        (arrAB.dim < 4 → ∃ h1 c1, arrAB.reserve heapAB (4 - arrAB.dim) = Except.ok (h1, c1) ∧
          h2 = h1 ∧ c2 = { c1 with dim := 4 }) :=
  ⟨by decide, by decide, by decide, by decide,
    setDim_contents heapAB arrAB [Cell.ptr 1, Cell.ptr 2] 4
      (by decide) (by decide) (by decide) (by decide)⟩

/-- C12 as stated fails twice.  On the inline container `[C]`, `setDim(2^61)`
asks for a block of `2^61 * 8` bytes, which wraps to 0, and the copy of the
old element goes out of bounds: there is no resulting container.  On the
well-formed `[A]` in a one-slot heap block, `setDim(2)` returns, but index 0
then reads the inline slot instead of `A`. -/
theorem setDim_contents_counterexamples :
    (WellFormed ([] : Heap Nat) arrC ∧ Discriminated arrC ∧
      arrC.elems [] = Except.ok [Cell.ptr 3] ∧
      arrC.setDim [] 2305843009213693952 = Except.error Fault.outOfBounds) ∧
    (WellFormed heapOne arrOne ∧ arrOne.elems heapOne = Except.ok [Cell.ptr 1] ∧
      arrOne.setDim heapOne 2 = Except.ok
        ([⟨true, [Cell.ptr 1]⟩, ⟨true, [Cell.junk, Cell.junk]⟩],
          { dim := 2, data := DataPtr.heap 1, allocdim := 2, smallarray := [Cell.junk] }) ∧
      Array.opIndex [⟨true, [Cell.ptr 1]⟩, ⟨true, [Cell.junk, Cell.junk]⟩]
        ({ dim := 2, data := DataPtr.heap 1, allocdim := 2, smallarray := [Cell.junk] } :
          Array Nat) 0 = Except.ok Cell.junk) := by
  decide

/-- C14 at a reachable container: after `push(A)`, `push(B)` and `pop()` the
container holds `[A]` in a heap block of two slots and index 0 reads `A`.
`fixDim()` copies `A` into the inline buffer and releases the block, but
leaves `data` pointing to the released block: the length is still 1, and the
read of index 0 is a use of released memory. -/
theorem fixDim_dangling_read :
    pushAll ([] : Heap Nat) Array.ctor [Cell.ptr 1, Cell.ptr 2] = Except.ok
        ([⟨true, [Cell.ptr 1, Cell.ptr 2]⟩],
          { dim := 2, data := DataPtr.heap 0, allocdim := 2, smallarray := [Cell.ptr 1] }) ∧
      Array.pop [⟨true, [Cell.ptr 1, Cell.ptr 2]⟩]
        ({ dim := 2, data := DataPtr.heap 0, allocdim := 2, smallarray := [Cell.ptr 1] } :
          Array Nat) = Except.ok (Cell.ptr 2,
          { dim := 1, data := DataPtr.heap 0, allocdim := 2, smallarray := [Cell.ptr 1] }) ∧
      Array.opIndex [⟨true, [Cell.ptr 1, Cell.ptr 2]⟩]
        ({ dim := 1, data := DataPtr.heap 0, allocdim := 2, smallarray := [Cell.ptr 1] } :
          Array Nat) 0 = Except.ok (Cell.ptr 1) ∧
      Array.fixDim [⟨true, [Cell.ptr 1, Cell.ptr 2]⟩]
        ({ dim := 1, data := DataPtr.heap 0, allocdim := 2, smallarray := [Cell.ptr 1] } :
          Array Nat) = Except.ok ([⟨false, [Cell.ptr 1, Cell.ptr 2]⟩],
          { dim := 1, data := DataPtr.heap 0, allocdim := 1, smallarray := [Cell.ptr 1] }) ∧
      Array.opIndex [⟨false, [Cell.ptr 1, Cell.ptr 2]⟩]
        ({ dim := 1, data := DataPtr.heap 0, allocdim := 1, smallarray := [Cell.ptr 1] } :
          Array Nat) 0 = Except.error Fault.useAfterFree := by
  decide

/-- C16 at the heap-backed container `[A]` of capacity 2: `fixDim()` returns
with the element in the inline buffer and the heap block released, but `data`
is still the address of the released block, not of the inline buffer; the
result is not well formed. -/
theorem fixDim_keeps_released_block :
    WellFormed heapA2 arrA2 ∧ arrA2.elems heapA2 = Except.ok [Cell.ptr 1] ∧
      arrA2.dim ≤ SMALLARRAYCAP ∧
      arrA2.fixDim heapA2 = Except.ok ([⟨false, [Cell.ptr 1, Cell.junk]⟩],
        { dim := 1, data := DataPtr.heap 0, allocdim := 1, smallarray := [Cell.ptr 1] }) ∧
      ¬ WellFormed [⟨false, [Cell.ptr 1, Cell.junk]⟩]
        ({ dim := 1, data := DataPtr.heap 0, allocdim := 1, smallarray := [Cell.ptr 1] } :
          Array Nat) ∧
      Array.elems [⟨false, [Cell.ptr 1, Cell.junk]⟩]
        ({ dim := 1, data := DataPtr.heap 0, allocdim := 1, smallarray := [Cell.ptr 1] } :
          Array Nat) = Except.error Fault.useAfterFree := by
  decide

/-- C19 at the empty container: the size computed for the block is 2, and
what `toChars()` writes (given room) is the 3 bytes `'['`, `']'`, `NUL`; in a
block of 2 bytes the last write is out of bounds. -/
theorem toChars_empty_size (f : TYPE → List Char) (h : Heap TYPE) :
    (Array.ctor : Array TYPE).toCharsLen f h = Except.ok ([], renderSize []) ∧
      renderSize [] = 2 ∧
      toCharsEmit 3 [] = Except.ok ['[', ']', Char.ofNat 0] ∧
      toCharsEmit (renderSize []) [] = Except.error Fault.outOfBounds := by
  refine ⟨rfl, rfl, ?_, ?_⟩ <;>
    simp [toCharsEmit, strWrite, toCharsFill, renderSize]

/-- C20 at a newly constructed container (in any heap): `dim = 0` differs from
`allocdim = 1`, so `fixDim()` calls `mem_free(data)` with `data` the address of
the inline buffer, which is not a heap block. -/
theorem fixDim_fresh_invalid_free (h : Heap TYPE) :
    (Array.ctor : Array TYPE).data = DataPtr.small ∧
      (Array.ctor : Array TYPE).dim = 0 ∧
      (Array.ctor : Array TYPE).allocdim = SMALLARRAYCAP ∧
      mem_free h (Array.ctor : Array TYPE).data = Except.error Fault.invalidFree ∧
      (Array.ctor : Array TYPE).fixDim h = Except.error Fault.invalidFree := by
  refine ⟨rfl, rfl, rfl, rfl, ?_⟩
  have hb : nslots (nbytes 0) = 0 := by decide
  simp [Array.fixDim, Array.ctor, SMALLARRAYCAP, memmove, load, region, store, hb, patch,
    mem_free]

/-- C15 (as amended): for a well-formed container holding `xs` whose capacity
is `SMALLARRAYCAP` only when the storage is the inline buffer, and which is
not an inline container with a free slot, and a non-empty list `y :: ys` with
the byte size of `dim + ys.length + 1` slots representable in `size_t`:
`fixDim()` returns, the pushes of `y :: ys` after it return, and the result
has length `dim + ys.length + 1` and holds `xs ++ y :: ys`. -/
theorem fixDim_push_roundtrip (h : Heap TYPE) (c : Array TYPE) (xs : List (Cell TYPE))
    (y : Cell TYPE) (ys : List (Cell TYPE)) (hwf : WellFormed h c) (hdisc : Discriminated c)
    (he : c.elems h = Except.ok xs) (hin : c.data = DataPtr.small → c.dim = c.allocdim)
    (hfit : (c.dim + (y :: ys).length) * PTR_SIZE < SIZE_MOD) :
    ∃ h1 c1 h2 c2, c.fixDim h = Except.ok (h1, c1) ∧ c1.dim = c.dim ∧
      pushAll h1 c1 (y :: ys) = Except.ok (h2, c2) ∧ c2.dim = c.dim + (y :: ys).length ∧
      c2.elems h2 = Except.ok (xs ++ y :: ys) ∧
      ∀ j v, (xs ++ y :: ys)[j]? = some v → c2.opIndex h2 j = Except.ok v := by
  obtain ⟨h1, c1, t, hfix, hd1, hwt, hdt, het, hdimt, hpush⟩ :=
    fixDim_then_push hwf hdisc he hin
  obtain ⟨h2, c2, hall, hd2, he2, -, -⟩ :=
    pushAll_core (y :: ys) hwt hdt het (by rw [hdimt]; exact hfit)
  have hsame : pushAll h1 c1 (y :: ys) = pushAll h1 t (y :: ys) := by
    simp only [pushAll, hpush y]
  exact ⟨h1, c1, h2, c2, hfix, hd1, by rw [hsame]; exact hall, by rw [hd2, hdimt], he2,
    fun j v hj => opIndex_of_mem he2 j v hj⟩

/-- The container `[A, B]` truncated to `[A]`, shrunk, and `B` pushed back. -/
theorem fixDim_push_roundtrip_witness :
    WellFormed heapAB arrABcut ∧ Discriminated arrABcut ∧
      arrABcut.elems heapAB = Except.ok [Cell.ptr 1] ∧
      (arrABcut.data = DataPtr.small → arrABcut.dim = arrABcut.allocdim) ∧
      (arrABcut.dim + [Cell.ptr 2].length) * PTR_SIZE < SIZE_MOD ∧
      ∃ h1 c1 h2 c2, arrABcut.fixDim heapAB = Except.ok (h1, c1) ∧ c1.dim = arrABcut.dim ∧
        pushAll h1 c1 [Cell.ptr 2] = Except.ok (h2, c2) ∧
        c2.dim = arrABcut.dim + [Cell.ptr 2].length ∧
        c2.elems h2 = Except.ok ([Cell.ptr 1] ++ [Cell.ptr 2]) ∧
        ∀ j v, ([Cell.ptr 1] ++ [Cell.ptr 2])[j]? = some v → c2.opIndex h2 j = Except.ok v :=
  ⟨by decide, by decide, by decide, by decide, by decide,
    fixDim_push_roundtrip heapAB arrABcut [Cell.ptr 1] (Cell.ptr 2) []
      (by decide) (by decide) (by decide) (by decide) (by decide)⟩

/-- C15 as stated fails: on the well-formed `[A]` in a live heap block of one
slot, `fixDim()` changes nothing (`dim = allocdim`) and the following `push(B)`
grows from the inline buffer: the result reads `[junk, B]`, not `[A, B]`. -/
theorem fixDim_push_heap_capacity_one :
    WellFormed heapOne arrOne ∧ arrOne.elems heapOne = Except.ok [Cell.ptr 1] ∧
      arrOne.fixDim heapOne = Except.ok (heapOne, arrOne) ∧
      pushAll heapOne arrOne [Cell.ptr 2] = Except.ok
        ([⟨true, [Cell.ptr 1]⟩, ⟨true, [Cell.junk, Cell.ptr 2]⟩],
          { dim := 2, data := DataPtr.heap 1, allocdim := 2, smallarray := [Cell.junk] }) ∧
      Array.elems [⟨true, [Cell.ptr 1]⟩, ⟨true, [Cell.junk, Cell.ptr 2]⟩]
          ({ dim := 2, data := DataPtr.heap 1, allocdim := 2, smallarray := [Cell.junk] } :
            Array Nat) ≠ Except.ok ([Cell.ptr 1] ++ [Cell.ptr 2]) := by
  decide

end GDC
